import Mathlib

/-
Verification development for the audit/event-log service
(src/server/services/auditService.ts).

The service keeps a process-wide map of active audit sessions, assigns
monotonic sequence numbers to events, persists events best-effort, buffers
them in memory for late-join replay, and fans them out live to WebSocket
subscribers.  The definitions below are a shallow embedding of that file:

  - the drizzle-backed tables auditLogs / auditLogEntries become lists of
    rows inside a DBState (nextId models the serial primary key);
  - the Map<number, ActiveAudit> and Map<WebSocket, number|null> become
    association lists keyed by Nat;
  - a WebSocket becomes a Nat handle with an isOpen flag and the list of
    messages actually delivered to it; ws.send delivers only when the
    socket is open (a send on a non-open socket is dropped by the
    transport), which also makes the explicit readyState guard in
    broadcastEntry a no-op at this level of abstraction;
  - every async function becomes a pure state transformer (callers await
    each call, so one call runs to completion before the next);
  - each fallible `await db....` inside a try/catch becomes a Bool
    parameter saying whether that durable operation succeeded.
-/

/-- Closed enumeration of event type tags (AuditEventType in shared/schema). -/
inductive AuditEventType
  | job_started
  | db_query
  | db_insert
  | db_update
  | llm_call
  | chunk_processed
  | skeleton_extracted
  | stitch_pass
  | error
  | job_completed
deriving DecidableEq, Repr

/-- Payload of a job_started event. -/
structure JobStartedData where
  jobType : String
  targetWords : Option Nat
  inputWords : Option Nat
deriving DecidableEq, Repr

/-- Payload of a db_query event (built by logDbQuery). -/
structure DbQueryData where
  sql : String
  params : Option (List String)
  table : String
  operation : String
  rowsReturned : Nat
  durationMs : Nat
deriving DecidableEq, Repr

/-- Payload of a db_insert event (built by logDbInsert). -/
structure DbInsertData where
  table : String
  rowId : Nat
  keyFields : List (String × String)
  durationMs : Nat
deriving DecidableEq, Repr

/-- Payload of a db_update event (built by logDbUpdate). -/
structure DbUpdateData where
  table : String
  rowId : Nat
  fieldsUpdated : List String
  newValues : List (String × String)
  durationMs : Nat
deriving DecidableEq, Repr

/-- Payload of an llm_call event (built by logLlmCall). -/
structure LlmCallData where
  model : String
  purpose : String
  chunkIndex : Option Nat
  inputTokens : Nat
  outputTokens : Nat
  promptPreview : String
  responsePreview : String
  durationMs : Nat
deriving DecidableEq, Repr

/-- Payload of a chunk_processed event (built by logChunkProcessed). -/
structure ChunkProcessedData where
  chunkIndex : Nat
  inputWords : Nat
  outputWords : Nat
  targetWords : Nat
  withinTolerance : Bool
  claimsAddressed : Option (List String)
  violations : Option (List String)
deriving DecidableEq, Repr

/-- Payload of a skeleton_extracted event (built by logSkeletonExtracted). -/
structure SkeletonExtractedData where
  claimsCount : Nat
  termsCount : Nat
  structuralRequirements : Nat
  totalTargetWords : Nat
deriving DecidableEq, Repr

/-- Payload of a stitch_pass event (built by logStitchPass). -/
structure StitchPassData where
  coherenceScore : String
  claimsCovered : Nat
  claimsMissing : Nat
  topicViolations : Nat
  repairsNeeded : Nat
deriving DecidableEq, Repr

/-- Payload of an error event (built by logError). -/
structure ErrorData where
  errorType : String
  message : String
  context : String
  chunkIndex : Option Nat
  willRetry : Bool
deriving DecidableEq, Repr

/-- Payload of a job_completed event (built by completeAudit). -/
structure JobCompletedData where
  jobType : String
  targetWords : Option Nat
  actualWords : Option Nat
  success : Bool
deriving DecidableEq, Repr

/-- Tagged union of event payloads (the any-typed eventData, one variant
per eventType). -/
inductive EventData
  | jobStarted (d : JobStartedData)
  | dbQuery (d : DbQueryData)
  | dbInsert (d : DbInsertData)
  | dbUpdate (d : DbUpdateData)
  | llmCall (d : LlmCallData)
  | chunkProcessed (d : ChunkProcessedData)
  | skeletonExtracted (d : SkeletonExtractedData)
  | stitchPass (d : StitchPassData)
  | errorEvent (d : ErrorData)
  | jobCompleted (d : JobCompletedData)
deriving DecidableEq, Repr

/-- In-memory buffered entry (interface AuditLogEntry in the source).
Timestamps are abstract Nats (Date values). -/
structure AuditLogEntry where
  sequenceNum : Nat
  timestamp : Nat
  eventType : AuditEventType
  eventData : EventData
deriving DecidableEq, Repr

/-- In-memory active session (interface ActiveAudit in the source).
Subscribers is a JS Set of WebSockets, modelled as a duplicate-free list of
socket handles in insertion order. -/
structure ActiveAudit where
  auditLogId : Nat
  userId : Nat
  jobType : String
  jobId : Option Nat
  sequenceCounter : Nat
  subscribers : List Nat
  entries : List AuditLogEntry
deriving DecidableEq, Repr

/-- Durable session row (auditLogs table). -/
structure AuditLogRow where
  id : Nat
  userId : Nat
  jobType : String
  jobId : Option Nat
  startedAt : Nat
  completedAt : Option Nat
  status : String
  finalOutputPreview : Option String
deriving DecidableEq, Repr

/-- Durable event row (auditLogEntries table). -/
structure AuditEntryRow where
  auditLogId : Nat
  sequenceNum : Nat
  timestamp : Nat
  eventType : AuditEventType
  eventData : EventData
deriving DecidableEq, Repr

/-- Durable store: both tables plus the serial id counter used by
db.insert(auditLogs)...returning. Serial ids start at 1. -/
structure DBState where
  nextId : Nat
  auditLogs : List AuditLogRow
  auditLogEntries : List AuditEntryRow
deriving DecidableEq, Repr

/-- Messages the server writes to a WebSocket (the JSON payloads of
ws.send in the source). -/
inductive WireMsg
  | entryMsg (auditLogId : Nat) (entry : AuditLogEntry)
  | subscribedMsg (auditLogId : Nat)
  | completedMsg (auditLogId : Nat) (success : Bool) (totalEntries : Nat)
  | historyMsg (auditLogId : Nat) (entries : List AuditEntryRow)
deriving DecidableEq, Repr

/-- One WebSocket: open flag (readyState = OPEN) and the messages delivered
to the client so far. -/
structure Socket where
  isOpen : Bool
  received : List WireMsg
deriving DecidableEq, Repr

/-- Whole server state: durable store, activeAudits map, clientConnections
map, and the sockets themselves. -/
structure ServerState where
  db : DBState
  activeAudits : List (Nat × ActiveAudit)
  clientConnections : List (Nat × Option Nat)
  sockets : List (Nat × Socket)
deriving DecidableEq, Repr

/-- Lookup in an association list keyed by Nat (Map.get). -/
def alGet {β : Type} (l : List (Nat × β)) (k : Nat) : Option β :=
  match l with
  | [] => none
  | (k', v) :: t => if k' = k then some v else alGet t k

/-- Update-or-append in an association list (Map.set): replaces the first
binding of the key in place, otherwise appends a new binding. -/
def alSet {β : Type} (l : List (Nat × β)) (k : Nat) (v : β) : List (Nat × β) :=
  match l with
  | [] => [(k, v)]
  | (k', v') :: t => if k' = k then (k, v) :: t else (k', v') :: alSet t k v

/-- Remove the first binding of a key (Map.delete). -/
def alErase {β : Type} (l : List (Nat × β)) (k : Nat) : List (Nat × β) :=
  match l with
  | [] => []
  | (k', v) :: t => if k' = k then t else (k', v) :: alErase t k

/-- Truncation of a string to its first n characters
(JavaScript String.prototype.substring(0, n)). -/
def strTake (n : Nat) (s : String) : String :=
  ⟨s.data.take n⟩

/-- Deliver one message to one socket (ws.send): appended to the socket's
stream only if the socket exists and is open; a send on a non-open socket
is dropped by the transport and delivers nothing. -/
def send (st : ServerState) (ws : Nat) (m : WireMsg) : ServerState :=
  match alGet st.sockets ws with
  | some sock =>
      if sock.isOpen then
        { st with sockets := alSet st.sockets ws { sock with received := sock.received ++ [m] } }
      else st
  | none => st

/-- Deliver one message to each socket of a list, in order. -/
def sendAll (st : ServerState) (l : List Nat) (m : WireMsg) : ServerState :=
  l.foldl (fun s w => send s w m) st

/-- Messages delivered to a socket so far. -/
def inbox (st : ServerState) (ws : Nat) : List WireMsg :=
  match alGet st.sockets ws with
  | some sock => sock.received
  | none => []

/-- Source broadcastEntry: sends the entry message to every subscriber of
the session whose readyState is OPEN; a no-op if the session has no
ActiveAudit. Total: never raises, whatever the state of any socket. -/
def broadcastEntry (st : ServerState) (auditLogId : Nat) (entry : AuditLogEntry) : ServerState :=
  match alGet st.activeAudits auditLogId with
  | none => st
  | some audit => sendAll st audit.subscribers (WireMsg.entryMsg auditLogId entry)

/-- Source logEvent: looks up the ActiveAudit; sequenceNum is the
incremented counter if one exists, else 1; always attempts the durable
insert (try/catch swallows a failure, modelled by insertOk); if an
ActiveAudit exists, appends the entry to its buffer and broadcasts it. -/
def logEvent (st : ServerState) (auditLogId : Nat) (timestamp : Nat)
    (eventType : AuditEventType) (eventData : EventData) (insertOk : Bool) : ServerState :=
  match alGet st.activeAudits auditLogId with
  | some audit =>
      let sequenceNum := audit.sequenceCounter + 1
      let entry : AuditLogEntry := ⟨sequenceNum, timestamp, eventType, eventData⟩
      let st1 : ServerState :=
        if insertOk then
          { st with db := { st.db with auditLogEntries :=
              st.db.auditLogEntries ++ [⟨auditLogId, sequenceNum, timestamp, eventType, eventData⟩] } }
        else st
      let audit' : ActiveAudit :=
        { audit with sequenceCounter := sequenceNum, entries := audit.entries ++ [entry] }
      let st2 : ServerState := { st1 with activeAudits := alSet st1.activeAudits auditLogId audit' }
      broadcastEntry st2 auditLogId entry
  | none =>
      let entry : AuditEntryRow := ⟨auditLogId, 1, timestamp, eventType, eventData⟩
      if insertOk then
        { st with db := { st.db with auditLogEntries := st.db.auditLogEntries ++ [entry] } }
      else st

/-- Source startAudit: inserts the session row (a failed insert propagates
and nothing is created), registers a fresh ActiveAudit with counter 0 and
empty buffer/subscribers, then logs job_started through logEvent. Returns
the new state and the assigned id. -/
def startAudit (st : ServerState) (userId : Nat) (jobType : String) (jobId : Option Nat)
    (startedAt : Nat) (createOk : Bool) (entryOk : Bool) : ServerState × Option Nat :=
  if createOk then
    let auditLogId := st.db.nextId
    let row : AuditLogRow := ⟨auditLogId, userId, jobType, jobId, startedAt, none, "running", none⟩
    let st1 : ServerState :=
      { st with db := { st.db with nextId := st.db.nextId + 1, auditLogs := st.db.auditLogs ++ [row] } }
    let audit : ActiveAudit := ⟨auditLogId, userId, jobType, jobId, 0, [], []⟩
    let st2 : ServerState := { st1 with activeAudits := alSet st1.activeAudits auditLogId audit }
    (logEvent st2 auditLogId startedAt AuditEventType.job_started
      (EventData.jobStarted ⟨jobType, none, none⟩) entryOk, some auditLogId)
  else (st, none)

/-- The jobType reported by completeAudit:
activeAudits.get(auditLogId)?.jobType || 'unknown' (JS truthiness: an
empty string also falls back to 'unknown'). -/
def jobTypeOrUnknown (st : ServerState) (auditLogId : Nat) : String :=
  match alGet st.activeAudits auditLogId with
  | some audit => if audit.jobType = "" then "unknown" else audit.jobType
  | none => "unknown"

/-- Stage two of completeAudit: the durable status update
(db.update(auditLogs).set(...).where(id)); its try/catch swallows a
failure, modelled by updateOk. The set value for finalOutputPreview is
finalOutputPreview?.substring(0, 500): when the preview argument is
omitted this is undefined and the ORM drops the field from the SET
clause, leaving the stored column unchanged. -/
def completeAuditUpdate (auditLogId : Nat) (timestamp : Nat) (success : Bool)
    (finalOutputPreview : Option String) (updateOk : Bool) (st1 : ServerState) : ServerState :=
  if updateOk then
    { st1 with db := { st1.db with auditLogs := st1.db.auditLogs.map (fun r =>
        if r.id = auditLogId then
          { r with completedAt := some timestamp,
                   status := if success then "completed" else "failed",
                   finalOutputPreview := match finalOutputPreview with
                     | some s => some (strTake 500 s)
                     | none => r.finalOutputPreview }
        else r) } }
  else st1

/-- Stage three of completeAudit: the terminal notification to every
subscriber, when an ActiveAudit still exists. -/
def completeAuditNotify (auditLogId : Nat) (success : Bool) (st2 : ServerState) : ServerState :=
  match alGet st2.activeAudits auditLogId with
  | some audit =>
      sendAll st2 audit.subscribers
        (WireMsg.completedMsg auditLogId success audit.entries.length)
  | none => st2

/-- Source completeAudit: logs a job_completed event through logEvent,
attempts the durable status update (try/catch swallows failure, modelled
by updateOk), sends the completed message to every subscriber if an
ActiveAudit still exists, then evicts the session from the registry. -/
def completeAudit (st : ServerState) (auditLogId : Nat) (timestamp : Nat) (success : Bool)
    (finalOutputPreview : Option String) (actualWords : Option Nat) (targetWords : Option Nat)
    (entryOk : Bool) (updateOk : Bool) : ServerState :=
  let st1 := logEvent st auditLogId timestamp AuditEventType.job_completed
    (EventData.jobCompleted ⟨jobTypeOrUnknown st auditLogId, targetWords, actualWords, success⟩)
    entryOk
  let st2 := completeAuditUpdate auditLogId timestamp success finalOutputPreview updateOk st1
  let st3 := completeAuditNotify auditLogId success st2
  { st3 with activeAudits := alErase st3.activeAudits auditLogId }

/-- Handler of a new WebSocket connection: registers the socket (open,
nothing received) and a null clientConnections binding. -/
def wsConnect (st : ServerState) (ws : Nat) : ServerState :=
  { st with clientConnections := alSet st.clientConnections ws none,
            sockets := alSet st.sockets ws ⟨true, []⟩ }

/-- Replay branch of the subscribe handler, for an existing ActiveAudit:
adds the socket to the subscriber set (Set.add: no duplicate), replays
every buffered entry to it in order, then sends the subscribed
acknowledgement. -/
def wsSubscribeReplay (ws : Nat) (auditLogId : Nat) (audit : ActiveAudit)
    (st1 : ServerState) : ServerState :=
  let audit' : ActiveAudit :=
    { audit with subscribers :=
        if audit.subscribers.contains ws then audit.subscribers
        else audit.subscribers ++ [ws] }
  let st2 : ServerState := { st1 with activeAudits := alSet st1.activeAudits auditLogId audit' }
  let st3 : ServerState :=
    audit'.entries.foldl (fun s e => send s ws (WireMsg.entryMsg auditLogId e)) st2
  send st3 ws (WireMsg.subscribedMsg auditLogId)

/-- Body of the subscribe handler, after the connection's session has been
recorded: if an ActiveAudit exists, replays it to the subscriber; in any
case the subscribed acknowledgement is sent. -/
def wsSubscribeBody (ws : Nat) (auditLogId : Nat) (st1 : ServerState) : ServerState :=
  match alGet st1.activeAudits auditLogId with
  | some audit => wsSubscribeReplay ws auditLogId audit st1
  | none => send st1 ws (WireMsg.subscribedMsg auditLogId)

/-- Handler of a subscribe message: records the connection's session in
clientConnections, then runs the body. -/
def wsSubscribe (st : ServerState) (ws : Nat) (auditLogId : Nat) : ServerState :=
  wsSubscribeBody ws auditLogId
    { st with clientConnections := alSet st.clientConnections ws (some auditLogId) }

/-- First half of socket closure: the transport itself is now closed
(readyState leaves OPEN), so nothing further is delivered to it. -/
def wsCloseSockets (ws : Nat) (st : ServerState) : ServerState :=
  { st with sockets := st.sockets.map (fun p =>
      (p.1, if p.1 = ws then { p.2 with isOpen := false } else p.2)) }

/-- Removal of a closing socket from one session's subscriber set. -/
def wsCloseUnsubSession (ws : Nat) (auditLogId : Nat) (st1 : ServerState) : ServerState :=
  match alGet st1.activeAudits auditLogId with
  | some audit =>
      let audit' : ActiveAudit := { audit with subscribers := audit.subscribers.erase ws }
      { st1 with activeAudits := alSet st1.activeAudits auditLogId audit' }
  | none => st1

/-- Body of the close handler: removes the socket from the subscriber set
of the session recorded for it in clientConnections, if any. -/
def wsCloseUnsub (ws : Nat) (st1 : ServerState) : ServerState :=
  match alGet st1.clientConnections ws with
  | some (some auditLogId) => wsCloseUnsubSession ws auditLogId st1
  | _ => st1

/-- Handler of a WebSocket close: the transport is now closed, the socket
is removed from its session's subscriber set (if any) and from
clientConnections. -/
def wsClose (st : ServerState) (ws : Nat) : ServerState :=
  let st2 := wsCloseUnsub ws (wsCloseSockets ws st)
  { st2 with clientConnections := alErase st2.clientConnections ws }

/-- Stable insertion into a list sorted by sequenceNum (helper of the
ORDER BY sequenceNum ASC read). -/
def insertBySeq (r : AuditEntryRow) : List AuditEntryRow → List AuditEntryRow
  | [] => [r]
  | h :: t => if r.sequenceNum < h.sequenceNum then r :: h :: t else h :: insertBySeq r t

/-- Stable sort by sequenceNum ascending. -/
def sortBySeq : List AuditEntryRow → List AuditEntryRow
  | [] => []
  | h :: t => insertBySeq h (sortBySeq t)

/-- Source getAuditEntries: the session's durable rows ordered by
sequenceNum ascending. -/
def getAuditEntries (db : DBState) (auditLogId : Nat) : List AuditEntryRow :=
  sortBySeq (db.auditLogEntries.filter (fun r => r.auditLogId = auditLogId))

/-- Source getAuditLog: the session row, if present. -/
def getAuditLog (db : DBState) (auditLogId : Nat) : Option AuditLogRow :=
  (db.auditLogs.filter (fun r => r.id = auditLogId)).head?

/-- Summary block of the full audit report. -/
structure AuditSummary where
  totalEvents : Nat
  dbQueries : Nat
  dbInserts : Nat
  dbUpdates : Nat
  llmCalls : Nat
  chunksProcessed : Nat
  errors : Nat
deriving DecidableEq, Repr

/-- Full audit report: session row, its events, and the computed summary. -/
structure FullAuditReport where
  log : AuditLogRow
  entries : List AuditEntryRow
  summary : AuditSummary
deriving DecidableEq, Repr

/-- Source getFullAuditReport: none when the session row is absent,
otherwise the row, its ordered events and per-type tallies. -/
def getFullAuditReport (db : DBState) (auditLogId : Nat) : Option FullAuditReport :=
  match getAuditLog db auditLogId with
  | none => none
  | some log =>
      let entries := getAuditEntries db auditLogId
      some ⟨log, entries,
        ⟨entries.length,
         (entries.filter (fun e => e.eventType = AuditEventType.db_query)).length,
         (entries.filter (fun e => e.eventType = AuditEventType.db_insert)).length,
         (entries.filter (fun e => e.eventType = AuditEventType.db_update)).length,
         (entries.filter (fun e => e.eventType = AuditEventType.llm_call)).length,
         (entries.filter (fun e => e.eventType = AuditEventType.chunk_processed)).length,
         (entries.filter (fun e => e.eventType = AuditEventType.error)).length⟩⟩

/-- Source logDbQuery: builds the db_query payload, truncating sql to its
first 500 characters, and submits it through logEvent. -/
def logDbQuery (st : ServerState) (auditLogId : Nat) (timestamp : Nat) (sql : String)
    (table : String) (operation : String) (rowsReturned : Nat) (durationMs : Nat)
    (params : Option (List String)) (insertOk : Bool) : ServerState :=
  logEvent st auditLogId timestamp AuditEventType.db_query
    (EventData.dbQuery ⟨strTake 500 sql, params, table, operation, rowsReturned, durationMs⟩)
    insertOk

/-- Source logLlmCall: builds the llm_call payload, truncating both
previews to their first 200 characters, and submits it through logEvent. -/
def logLlmCall (st : ServerState) (auditLogId : Nat) (timestamp : Nat) (model : String)
    (purpose : String) (inputTokens : Nat) (outputTokens : Nat) (promptPreview : String)
    (responsePreview : String) (durationMs : Nat) (chunkIndex : Option Nat)
    (insertOk : Bool) : ServerState :=
  logEvent st auditLogId timestamp AuditEventType.llm_call
    (EventData.llmCall ⟨model, purpose, chunkIndex, inputTokens, outputTokens,
      strTake 200 promptPreview, strTake 200 responsePreview, durationMs⟩)
    insertOk

/-- Source getActiveAuditForJob: linear scan of the registry for a session
whose jobId matches. -/
def getActiveAuditForJob (st : ServerState) (jobId : Nat) : Option Nat :=
  (st.activeAudits.find? (fun p => p.2.jobId = some jobId)).map (fun p => p.1)

/-- Externally visible operations, for trace-based claims. Bool parameters
record whether the corresponding durable write succeeded. -/
inductive Op
  | start (userId : Nat) (jobType : String) (jobId : Option Nat) (ts : Nat)
      (createOk : Bool) (entryOk : Bool)
  | logEv (auditLogId : Nat) (ts : Nat) (ty : AuditEventType) (d : EventData) (insertOk : Bool)
  | complete (auditLogId : Nat) (ts : Nat) (success : Bool) (preview : Option String)
      (actualWords : Option Nat) (targetWords : Option Nat) (entryOk : Bool) (updateOk : Bool)
  | connect (ws : Nat)
  | subscribe (ws : Nat) (auditLogId : Nat)
  | close (ws : Nat)
deriving DecidableEq, Repr

/-- One operation applied to the server state. -/
def stepOp (st : ServerState) : Op → ServerState
  | Op.start u jt ji ts c e => (startAudit st u jt ji ts c e).1
  | Op.logEv id ts ty d ok => logEvent st id ts ty d ok
  | Op.complete id ts success pv aw tw e u => completeAudit st id ts success pv aw tw e u
  | Op.connect ws => wsConnect st ws
  | Op.subscribe ws id => wsSubscribe st ws id
  | Op.close ws => wsClose st ws

/-- Run a sequence of operations. -/
def runOps (st : ServerState) : List Op → ServerState
  | [] => st
  | op :: t => runOps (stepOp st op) t

/-- Process start: empty store (serial ids start at 1), no active
sessions, no connections. -/
def initState : ServerState :=
  ⟨⟨1, [], []⟩, [], [], []⟩

/-- Keys of an association list. -/
def alKeys {β : Type} (l : List (Nat × β)) : List Nat :=
  l.map Prod.fst

theorem alGet_alSet_self {β : Type} (l : List (Nat × β)) (k : Nat) (v : β) :
    alGet (alSet l k v) k = some v := by
  induction l with
  | nil => simp [alSet, alGet]
  | cons p t ih =>
    by_cases h : p.1 = k
    · simp [alSet, alGet, h]
    · simp [alSet, alGet, h, ih]

theorem alGet_alSet_ne {β : Type} (l : List (Nat × β)) (k k' : Nat) (v : β) (h : k' ≠ k) :
    alGet (alSet l k v) k' = alGet l k' := by
  have h' : ¬ k = k' := fun hh => h hh.symm
  induction l with
  | nil => simp [alSet, alGet, h']
  | cons p t ih =>
    obtain ⟨k1, v1⟩ := p
    by_cases h1 : k1 = k
    · subst h1
      simp [alSet, alGet, h']
    · simp [alSet, alGet, h1, ih]

theorem mem_alSet {β : Type} (l : List (Nat × β)) (k : Nat) (v : β) (p : Nat × β)
    (hp : p ∈ alSet l k v) : p = (k, v) ∨ p ∈ l := by
  induction l with
  | nil => simpa [alSet] using hp
  | cons q t ih =>
    by_cases h : q.1 = k
    · simp only [alSet, h, if_pos rfl] at hp
      rcases List.mem_cons.mp hp with h1 | h1
      · exact Or.inl h1
      · exact Or.inr (List.mem_cons_of_mem _ h1)
    · simp only [alSet, h, if_neg h] at hp
      rcases List.mem_cons.mp hp with h1 | h1
      · exact Or.inr (List.mem_cons.mpr (Or.inl h1))
      · rcases ih h1 with h2 | h2
        · exact Or.inl h2
        · exact Or.inr (List.mem_cons_of_mem _ h2)

theorem mem_alKeys_alSet {β : Type} (l : List (Nat × β)) (k : Nat) (v : β) (a : Nat)
    (ha : a ∈ alKeys (alSet l k v)) : a ∈ alKeys l ∨ a = k := by
  simp only [alKeys, List.mem_map] at ha ⊢
  obtain ⟨p, hp, rfl⟩ := ha
  rcases mem_alSet l k v p hp with h | h
  · exact Or.inr (by rw [h])
  · exact Or.inl ⟨p, h, rfl⟩

theorem alKeys_nodup_alSet {β : Type} (l : List (Nat × β)) (k : Nat) (v : β)
    (h : (alKeys l).Nodup) : (alKeys (alSet l k v)).Nodup := by
  induction l with
  | nil => simp [alSet, alKeys]
  | cons p t ih =>
    obtain ⟨k1, v1⟩ := p
    simp only [alKeys, List.map_cons, List.nodup_cons] at h
    by_cases hp : k1 = k
    · subst hp
      have hset : alSet ((k1, v1) :: t) k1 v = (k1, v) :: t := by simp [alSet]
      rw [hset]
      simp only [alKeys, List.map_cons, List.nodup_cons]
      exact ⟨h.1, h.2⟩
    · have hnd := ih h.2
      have hmem : k1 ∉ alKeys (alSet t k v) := by
        intro hm
        rcases mem_alKeys_alSet t k v k1 hm with hh | hh
        · exact h.1 hh
        · exact hp hh
      simp only [alSet, if_neg hp, alKeys, List.map_cons, List.nodup_cons]
      exact ⟨hmem, hnd⟩

theorem alErase_sublist {β : Type} (l : List (Nat × β)) (k : Nat) :
    (alErase l k).Sublist l := by
  induction l with
  | nil => simp [alErase]
  | cons p t ih =>
    by_cases h : p.1 = k
    · simpa [alErase, h] using List.sublist_cons_self p t
    · simpa [alErase, h] using List.Sublist.cons₂ p ih

theorem mem_alErase {β : Type} (l : List (Nat × β)) (k : Nat) (p : Nat × β)
    (hp : p ∈ alErase l k) : p ∈ l :=
  (alErase_sublist l k).subset hp

theorem alKeys_nodup_alErase {β : Type} (l : List (Nat × β)) (k : Nat)
    (h : (alKeys l).Nodup) : (alKeys (alErase l k)).Nodup :=
  ((alErase_sublist l k).map Prod.fst).nodup h

theorem alGet_eq_none_of_not_mem {β : Type} (l : List (Nat × β)) (k : Nat)
    (h : k ∉ alKeys l) : alGet l k = none := by
  induction l with
  | nil => rfl
  | cons p t ih =>
    obtain ⟨k1, v1⟩ := p
    simp only [alKeys, List.map_cons, List.mem_cons] at h
    push_neg at h
    simp only [alGet, if_neg (fun hh : k1 = k => h.1 hh.symm)]
    exact ih h.2

theorem alGet_mem {β : Type} (l : List (Nat × β)) (k : Nat) (v : β)
    (h : alGet l k = some v) : (k, v) ∈ l := by
  induction l with
  | nil => simp [alGet] at h
  | cons p t ih =>
    by_cases hp : p.1 = k
    · simp only [alGet, if_pos hp] at h
      obtain rfl := Option.some.inj h
      exact List.mem_cons.mpr (Or.inl (by cases p; simp_all))
    · simp only [alGet, if_neg hp] at h
      exact List.mem_cons_of_mem _ (ih h)

theorem alGet_alErase_self {β : Type} (l : List (Nat × β)) (k : Nat)
    (h : (alKeys l).Nodup) : alGet (alErase l k) k = none := by
  induction l with
  | nil => rfl
  | cons p t ih =>
    simp only [alKeys, List.map_cons, List.nodup_cons] at h
    by_cases hp : p.1 = k
    · simp only [alErase, if_pos hp]
      exact alGet_eq_none_of_not_mem t k (hp ▸ h.1)
    · simp only [alErase, if_neg hp, alGet, if_neg hp]
      exact ih h.2

theorem alGet_alErase_ne {β : Type} (l : List (Nat × β)) (k k' : Nat) (h : k' ≠ k) :
    alGet (alErase l k) k' = alGet l k' := by
  induction l with
  | nil => rfl
  | cons p t ih =>
    obtain ⟨k1, v1⟩ := p
    by_cases hp : k1 = k
    · subst hp
      have hne : ¬ k1 = k' := fun hh => h hh.symm
      simp [alErase, alGet, hne]
    · simp [alErase, alGet, hp, ih]

/-- A socket that is closed (or gone) at the transport level. -/
def SockClosed (st : ServerState) (ws : Nat) : Prop :=
  ∀ sock, alGet st.sockets ws = some sock → sock.isOpen = false

theorem send_db (st : ServerState) (ws : Nat) (m : WireMsg) : (send st ws m).db = st.db := by
  unfold send
  cases alGet st.sockets ws with
  | none => rfl
  | some sock => by_cases h : sock.isOpen <;> simp [h]

theorem send_activeAudits (st : ServerState) (ws : Nat) (m : WireMsg) :
    (send st ws m).activeAudits = st.activeAudits := by
  unfold send
  cases alGet st.sockets ws with
  | none => rfl
  | some sock => by_cases h : sock.isOpen <;> simp [h]

theorem send_clientConnections (st : ServerState) (ws : Nat) (m : WireMsg) :
    (send st ws m).clientConnections = st.clientConnections := by
  unfold send
  cases alGet st.sockets ws with
  | none => rfl
  | some sock => by_cases h : sock.isOpen <;> simp [h]

theorem alGet_send_ne (st : ServerState) (ws ws' : Nat) (m : WireMsg) (h : ws' ≠ ws) :
    alGet (send st ws m).sockets ws' = alGet st.sockets ws' := by
  unfold send
  cases alGet st.sockets ws with
  | none => rfl
  | some sock =>
    by_cases h1 : sock.isOpen
    · simp [h1, alGet_alSet_ne _ _ _ _ h]
    · simp [h1]

theorem send_self_open (st : ServerState) (ws : Nat) (m : WireMsg) (rcv : List WireMsg)
    (hs : alGet st.sockets ws = some ⟨true, rcv⟩) :
    alGet (send st ws m).sockets ws = some ⟨true, rcv ++ [m]⟩ := by
  simp only [send, hs]
  simp [alGet_alSet_self]

theorem send_closed (st : ServerState) (ws : Nat) (m : WireMsg) (h : SockClosed st ws) :
    send st ws m = st := by
  unfold send
  cases hs : alGet st.sockets ws with
  | none => rfl
  | some sock => simp [h sock hs]

theorem sendAll_nil (st : ServerState) (m : WireMsg) : sendAll st [] m = st := rfl

theorem sendAll_cons (st : ServerState) (w : Nat) (t : List Nat) (m : WireMsg) :
    sendAll st (w :: t) m = sendAll (send st w m) t m := rfl

theorem sendAll_db (l : List Nat) (m : WireMsg) :
    ∀ st : ServerState, (sendAll st l m).db = st.db := by
  induction l with
  | nil => intro st; rfl
  | cons w t ih => intro st; rw [sendAll_cons, ih, send_db]

theorem sendAll_activeAudits (l : List Nat) (m : WireMsg) :
    ∀ st : ServerState, (sendAll st l m).activeAudits = st.activeAudits := by
  induction l with
  | nil => intro st; rfl
  | cons w t ih => intro st; rw [sendAll_cons, ih, send_activeAudits]

theorem sendAll_clientConnections (l : List Nat) (m : WireMsg) :
    ∀ st : ServerState, (sendAll st l m).clientConnections = st.clientConnections := by
  induction l with
  | nil => intro st; rfl
  | cons w t ih => intro st; rw [sendAll_cons, ih, send_clientConnections]

theorem alGet_sendAll_not_mem (l : List Nat) (m : WireMsg) (ws : Nat) (h : ws ∉ l) :
    ∀ st : ServerState, alGet (sendAll st l m).sockets ws = alGet st.sockets ws := by
  induction l with
  | nil => intro st; rfl
  | cons w t ih =>
    intro st
    have hne : ws ≠ w := fun hh => h (hh ▸ List.mem_cons_self w t)
    have ht : ws ∉ t := fun hh => h (List.mem_cons_of_mem _ hh)
    rw [sendAll_cons, ih ht, alGet_send_ne _ _ _ _ hne]

theorem sendAll_open_mem (l : List Nat) (m : WireMsg) (ws : Nat) (hnd : l.Nodup) (hmem : ws ∈ l) :
    ∀ (st : ServerState) (rcv : List WireMsg), alGet st.sockets ws = some ⟨true, rcv⟩ →
      alGet (sendAll st l m).sockets ws = some ⟨true, rcv ++ [m]⟩ := by
  induction l with
  | nil => simp at hmem
  | cons w t ih =>
    intro st rcv hs
    rcases List.nodup_cons.mp hnd with ⟨hw, hnt⟩
    rcases List.mem_cons.mp hmem with h1 | h1
    · subst h1
      rw [sendAll_cons, alGet_sendAll_not_mem t m ws hw]
      exact send_self_open st ws m rcv hs
    · have hne : ws ≠ w := fun hh => hw (hh ▸ h1)
      rw [sendAll_cons]
      exact ih hnt h1 _ rcv (by rw [alGet_send_ne _ _ _ _ hne]; exact hs)

theorem sockClosed_of_same_get (st st' : ServerState) (ws : Nat)
    (h : alGet st'.sockets ws = alGet st.sockets ws) (hc : SockClosed st ws) :
    SockClosed st' ws := by
  intro sock hs
  exact hc sock (h ▸ hs)

theorem alGet_sendAll_closed (l : List Nat) (m : WireMsg) (ws : Nat) :
    ∀ st : ServerState, SockClosed st ws →
      alGet (sendAll st l m).sockets ws = alGet st.sockets ws := by
  induction l with
  | nil => intro st _; rfl
  | cons w t ih =>
    intro st hc
    by_cases h : w = ws
    · subst h
      rw [sendAll_cons, send_closed st w m hc]
      exact ih st hc
    · have hne : ws ≠ w := fun hh => h hh.symm
      have hget := alGet_send_ne st w ws m hne
      rw [sendAll_cons, ih _ (sockClosed_of_same_get st _ ws hget hc), hget]

/-- Sequential delivery of a list of messages to one socket. -/
def sendSeq (st : ServerState) (ws : Nat) (ms : List WireMsg) : ServerState :=
  ms.foldl (fun s m => send s ws m) st

theorem foldl_send_eq_sendSeq {α : Type} (l : List α) (f : α → WireMsg) (ws : Nat)
    (st : ServerState) :
    l.foldl (fun s e => send s ws (f e)) st = sendSeq st ws (l.map f) := by
  simp [sendSeq, List.foldl_map]

theorem sendSeq_nil (st : ServerState) (ws : Nat) : sendSeq st ws [] = st := rfl

theorem sendSeq_cons (st : ServerState) (ws : Nat) (m : WireMsg) (t : List WireMsg) :
    sendSeq st ws (m :: t) = sendSeq (send st ws m) ws t := rfl

theorem sendSeq_db (ms : List WireMsg) (ws : Nat) :
    ∀ st : ServerState, (sendSeq st ws ms).db = st.db := by
  induction ms with
  | nil => intro st; rfl
  | cons m t ih => intro st; rw [sendSeq_cons, ih, send_db]

theorem sendSeq_activeAudits (ms : List WireMsg) (ws : Nat) :
    ∀ st : ServerState, (sendSeq st ws ms).activeAudits = st.activeAudits := by
  induction ms with
  | nil => intro st; rfl
  | cons m t ih => intro st; rw [sendSeq_cons, ih, send_activeAudits]

theorem sendSeq_clientConnections (ms : List WireMsg) (ws : Nat) :
    ∀ st : ServerState, (sendSeq st ws ms).clientConnections = st.clientConnections := by
  induction ms with
  | nil => intro st; rfl
  | cons m t ih => intro st; rw [sendSeq_cons, ih, send_clientConnections]

theorem alGet_sendSeq_ne (ms : List WireMsg) (ws ws' : Nat) (h : ws' ≠ ws) :
    ∀ st : ServerState, alGet (sendSeq st ws ms).sockets ws' = alGet st.sockets ws' := by
  induction ms with
  | nil => intro st; rfl
  | cons m t ih => intro st; rw [sendSeq_cons, ih, alGet_send_ne _ _ _ _ h]

theorem sendSeq_open (ms : List WireMsg) (ws : Nat) :
    ∀ (st : ServerState) (rcv : List WireMsg), alGet st.sockets ws = some ⟨true, rcv⟩ →
      alGet (sendSeq st ws ms).sockets ws = some ⟨true, rcv ++ ms⟩ := by
  induction ms with
  | nil => intro st rcv hs; simpa using hs
  | cons m t ih =>
    intro st rcv hs
    rw [sendSeq_cons]
    have h1 := send_self_open st ws m rcv hs
    rw [ih _ _ h1, List.append_assoc]
    rfl

theorem sendSeq_closed (ms : List WireMsg) (ws : Nat) :
    ∀ st : ServerState, SockClosed st ws → sendSeq st ws ms = st := by
  induction ms with
  | nil => intro st _; rfl
  | cons m t ih =>
    intro st hc
    rw [sendSeq_cons, send_closed st ws m hc]
    exact ih st hc

/-- The entry payloads for a given session among a list of delivered
messages (what a client parses back out of the stream). -/
def entryMsgs (sid : Nat) (ms : List WireMsg) : List AuditLogEntry :=
  ms.filterMap (fun m =>
    match m with
    | WireMsg.entryMsg id e => if id = sid then some e else none
    | _ => none)

theorem entryMsgs_nil (sid : Nat) : entryMsgs sid [] = [] := rfl

theorem entryMsgs_append (sid : Nat) (a b : List WireMsg) :
    entryMsgs sid (a ++ b) = entryMsgs sid a ++ entryMsgs sid b := by
  simp [entryMsgs, List.filterMap_append]

theorem entryMsgs_entry_self (sid : Nat) (e : AuditLogEntry) :
    entryMsgs sid [WireMsg.entryMsg sid e] = [e] := by
  simp [entryMsgs]

theorem entryMsgs_entry_ne (sid id : Nat) (e : AuditLogEntry) (h : id ≠ sid) :
    entryMsgs sid [WireMsg.entryMsg id e] = [] := by
  simp [entryMsgs, h]

theorem entryMsgs_subscribed (sid id : Nat) :
    entryMsgs sid [WireMsg.subscribedMsg id] = [] := rfl

theorem entryMsgs_completed (sid id : Nat) (success : Bool) (n : Nat) :
    entryMsgs sid [WireMsg.completedMsg id success n] = [] := rfl

theorem entryMsgs_map_entry (sid : Nat) (l : List AuditLogEntry) :
    entryMsgs sid (l.map (WireMsg.entryMsg sid)) = l := by
  induction l with
  | nil => rfl
  | cons e t ih =>
    simp only [List.map_cons]
    have : (WireMsg.entryMsg sid e) :: t.map (WireMsg.entryMsg sid)
        = [WireMsg.entryMsg sid e] ++ t.map (WireMsg.entryMsg sid) := rfl
    rw [this, entryMsgs_append, entryMsgs_entry_self, ih]
    rfl

theorem logEvent_none (st : ServerState) (sid ts : Nat) (ty : AuditEventType) (d : EventData)
    (ok : Bool) (h : alGet st.activeAudits sid = none) :
    logEvent st sid ts ty d ok =
      { st with db := { st.db with auditLogEntries := st.db.auditLogEntries ++
          (if ok then [⟨sid, 1, ts, ty, d⟩] else []) } } := by
  by_cases hok : ok = true
  · subst hok
    simp [logEvent, h]
  · replace hok : ok = false := by simpa using hok
    subst hok
    simp [logEvent, h]

theorem logEvent_some (st : ServerState) (sid ts : Nat) (ty : AuditEventType) (d : EventData)
    (ok : Bool) (a : ActiveAudit) (ha : alGet st.activeAudits sid = some a) :
    logEvent st sid ts ty d ok =
      sendAll
        { st with
            db := { st.db with auditLogEntries := st.db.auditLogEntries ++
                      (if ok then [⟨sid, a.sequenceCounter + 1, ts, ty, d⟩] else []) },
            activeAudits := alSet st.activeAudits sid
              { a with sequenceCounter := a.sequenceCounter + 1,
                       entries := a.entries ++ [⟨a.sequenceCounter + 1, ts, ty, d⟩] } }
        a.subscribers
        (WireMsg.entryMsg sid ⟨a.sequenceCounter + 1, ts, ty, d⟩) := by
  by_cases hok : ok = true
  · subst hok
    simp [logEvent, ha, broadcastEntry, alGet_alSet_self]
  · replace hok : ok = false := by simpa using hok
    subst hok
    simp [logEvent, ha, broadcastEntry, alGet_alSet_self]

/-- Invariant of every reachable server state: the registry has no
duplicate session ids, every registered id is below the next serial id,
every subscriber set is duplicate-free (it models a JS Set), and every
ActiveAudit's counter equals its buffer length with the buffer holding
sequence numbers 1..n in order. -/
structure StateInv (st : ServerState) : Prop where
  keysNodup : (alKeys st.activeAudits).Nodup
  idLt : ∀ p ∈ st.activeAudits, p.1 < st.db.nextId
  subsNodup : ∀ p ∈ st.activeAudits, p.2.subscribers.Nodup
  wfCounter : ∀ p ∈ st.activeAudits, p.2.sequenceCounter = p.2.entries.length
  wfSeq : ∀ p ∈ st.activeAudits,
    p.2.entries.map (fun e => e.sequenceNum) = List.range' 1 p.2.entries.length

theorem stateInv_congr (st st' : ServerState)
    (ha : st'.activeAudits = st.activeAudits) (hn : st'.db.nextId = st.db.nextId)
    (h : StateInv st) : StateInv st' := by
  refine ⟨?_, ?_, ?_, ?_, ?_⟩ <;> rw [ha]
  · exact h.keysNodup
  · rw [hn]; exact h.idLt
  · exact h.subsNodup
  · exact h.wfCounter
  · exact h.wfSeq

theorem stateInv_initState : StateInv initState := by
  refine ⟨?_, ?_, ?_, ?_, ?_⟩ <;> simp [initState, alKeys]

theorem stateInv_logEvent (st : ServerState) (sid ts : Nat) (ty : AuditEventType)
    (d : EventData) (ok : Bool) (h : StateInv st) :
    StateInv (logEvent st sid ts ty d ok) := by
  cases ha : alGet st.activeAudits sid with
  | none =>
    rw [logEvent_none st sid ts ty d ok ha]
    exact stateInv_congr st _ rfl rfl h
  | some a =>
    rw [logEvent_some st sid ts ty d ok a ha]
    have hmem := alGet_mem _ _ _ ha
    apply stateInv_congr _ _ (sendAll_activeAudits _ _ _)
      (by rw [sendAll_db]) 
    refine ⟨alKeys_nodup_alSet _ _ _ h.keysNodup, ?_, ?_, ?_, ?_⟩
    · intro p hp
      rcases mem_alSet _ _ _ _ hp with h1 | h1
      · subst h1
        simpa using h.idLt (sid, a) hmem
      · exact h.idLt _ h1
    · intro p hp
      rcases mem_alSet _ _ _ _ hp with h1 | h1
      · subst h1
        simpa using h.subsNodup (sid, a) hmem
      · exact h.subsNodup _ h1
    · intro p hp
      rcases mem_alSet _ _ _ _ hp with h1 | h1
      · subst h1
        have hc : a.sequenceCounter = a.entries.length := h.wfCounter (sid, a) hmem
        simp [hc]
      · exact h.wfCounter _ h1
    · intro p hp
      rcases mem_alSet _ _ _ _ hp with h1 | h1
      · subst h1
        have hc : a.sequenceCounter = a.entries.length := h.wfCounter (sid, a) hmem
        have hs : a.entries.map (fun e => e.sequenceNum)
            = List.range' 1 a.entries.length := h.wfSeq (sid, a) hmem
        have hcat := List.range'_1_concat 1 a.entries.length
        simp only [List.map_append, List.length_append, List.map_cons, List.map_nil,
          List.length_cons, List.length_nil]
        rw [hs, hc]
        rw [show a.entries.length + 0 + 1 = a.entries.length + 1 by omega, hcat]
        congr 1
        simp [Nat.add_comm]
      · exact h.wfSeq _ h1

theorem startAudit_true (st : ServerState) (u : Nat) (jt : String) (ji : Option Nat)
    (ts : Nat) (e : Bool) :
    (startAudit st u jt ji ts true e).1 =
      logEvent
        { st with
            db := { st.db with
                      nextId := st.db.nextId + 1,
                      auditLogs := st.db.auditLogs ++
                        [⟨st.db.nextId, u, jt, ji, ts, none, "running", none⟩] },
            activeAudits := alSet st.activeAudits st.db.nextId
              ⟨st.db.nextId, u, jt, ji, 0, [], []⟩ }
        st.db.nextId ts AuditEventType.job_started (EventData.jobStarted ⟨jt, none, none⟩) e := by
  simp [startAudit]

theorem startAudit_false (st : ServerState) (u : Nat) (jt : String) (ji : Option Nat)
    (ts : Nat) (e : Bool) :
    (startAudit st u jt ji ts false e).1 = st := rfl

theorem stateInv_erase (st : ServerState) (sid : Nat) (h : StateInv st) :
    StateInv { st with activeAudits := alErase st.activeAudits sid } := by
  refine ⟨alKeys_nodup_alErase _ _ h.keysNodup, ?_, ?_, ?_, ?_⟩ <;> intro p hp
  · exact h.idLt _ (mem_alErase _ _ _ hp)
  · exact h.subsNodup _ (mem_alErase _ _ _ hp)
  · exact h.wfCounter _ (mem_alErase _ _ _ hp)
  · exact h.wfSeq _ (mem_alErase _ _ _ hp)

theorem stateInv_startAudit (st : ServerState) (u : Nat) (jt : String) (ji : Option Nat)
    (ts : Nat) (c e : Bool) (h : StateInv st) : StateInv (startAudit st u jt ji ts c e).1 := by
  by_cases hc : c = true
  · subst hc
    rw [startAudit_true]
    apply stateInv_logEvent
    refine ⟨alKeys_nodup_alSet _ _ _ h.keysNodup, ?_, ?_, ?_, ?_⟩ <;> intro p hp
    · rcases mem_alSet _ _ _ _ hp with h1 | h1
      · subst h1; simp
      · have := h.idLt _ h1
        simp only []
        omega
    · rcases mem_alSet _ _ _ _ hp with h1 | h1
      · subst h1; simp
      · exact h.subsNodup _ h1
    · rcases mem_alSet _ _ _ _ hp with h1 | h1
      · subst h1; simp
      · exact h.wfCounter _ h1
    · rcases mem_alSet _ _ _ _ hp with h1 | h1
      · subst h1; simp [List.range']
      · exact h.wfSeq _ h1
  · replace hc : c = false := by simpa using hc
    subst hc
    rw [startAudit_false]
    exact h

theorem stateInv_completeAuditUpdate (sid ts : Nat) (success : Bool) (pv : Option String)
    (uok : Bool) (st1 : ServerState) (h : StateInv st1) :
    StateInv (completeAuditUpdate sid ts success pv uok st1) := by
  by_cases hu : uok = true
  · subst hu
    exact stateInv_congr st1 _ rfl rfl h
  · replace hu : uok = false := by simpa using hu
    subst hu
    exact h

theorem stateInv_completeAuditNotify (sid : Nat) (success : Bool) (st2 : ServerState)
    (h : StateInv st2) : StateInv (completeAuditNotify sid success st2) := by
  unfold completeAuditNotify
  cases hg : alGet st2.activeAudits sid with
  | none => exact h
  | some audit =>
      exact stateInv_congr _ _ (sendAll_activeAudits _ _ _) (by rw [sendAll_db]) h

theorem stateInv_completeAudit (st : ServerState) (sid ts : Nat) (success : Bool)
    (pv : Option String) (aw tw : Option Nat) (eok uok : Bool) (h : StateInv st) :
    StateInv (completeAudit st sid ts success pv aw tw eok uok) := by
  unfold completeAudit
  exact stateInv_erase _ sid
    (stateInv_completeAuditNotify sid success _
      (stateInv_completeAuditUpdate sid ts success pv uok _
        (stateInv_logEvent _ _ _ _ _ _ h)))

theorem stateInv_wsConnect (st : ServerState) (ws : Nat) (h : StateInv st) :
    StateInv (wsConnect st ws) :=
  stateInv_congr st _ rfl rfl h

theorem stateInv_setSubscribers (st : ServerState) (sid : Nat) (audit : ActiveAudit)
    (subs : List Nat) (hga : alGet st.activeAudits sid = some audit) (hnd : subs.Nodup)
    (h : StateInv st) :
    StateInv { st with
      activeAudits := alSet st.activeAudits sid { audit with subscribers := subs } } := by
  have hmem : (sid, audit) ∈ st.activeAudits := alGet_mem _ _ _ hga
  refine ⟨alKeys_nodup_alSet _ _ _ h.keysNodup, ?_, ?_, ?_, ?_⟩ <;> intro p hp <;>
    rcases mem_alSet _ _ _ _ hp with h1 | h1
  · subst h1
    simpa using h.idLt (sid, audit) hmem
  · exact h.idLt _ h1
  · subst h1
    simpa using hnd
  · exact h.subsNodup _ h1
  · subst h1
    simpa using h.wfCounter (sid, audit) hmem
  · exact h.wfCounter _ h1
  · subst h1
    simpa using h.wfSeq (sid, audit) hmem
  · exact h.wfSeq _ h1

theorem wsSubscribeBody_some (ws sid : Nat) (st1 : ServerState) (audit : ActiveAudit)
    (h : alGet st1.activeAudits sid = some audit) :
    wsSubscribeBody ws sid st1 = wsSubscribeReplay ws sid audit st1 := by
  simp only [wsSubscribeBody, h]

theorem wsSubscribeBody_none (ws sid : Nat) (st1 : ServerState)
    (h : alGet st1.activeAudits sid = none) :
    wsSubscribeBody ws sid st1 = send st1 ws (WireMsg.subscribedMsg sid) := by
  simp only [wsSubscribeBody, h]

theorem stateInv_wsSubscribeBody (ws sid : Nat) (st1 : ServerState) (h : StateInv st1) :
    StateInv (wsSubscribeBody ws sid st1) := by
  cases hg : alGet st1.activeAudits sid with
  | none =>
    rw [wsSubscribeBody_none ws sid st1 hg]
    exact stateInv_congr _ _ (send_activeAudits _ _ _) (by rw [send_db]) h
  | some audit =>
    rw [wsSubscribeBody_some ws sid st1 audit hg]
    have hnd : (if audit.subscribers.contains ws then audit.subscribers
        else audit.subscribers ++ [ws]).Nodup := by
      have hnd0 := h.subsNodup (sid, audit) (alGet_mem _ _ _ hg)
      by_cases hc : audit.subscribers.contains ws
      · rw [if_pos hc]
        exact hnd0
      · rw [if_neg hc]
        have hws : ws ∉ audit.subscribers := fun hmm => hc (List.elem_iff.mpr hmm)
        simp [List.nodup_append, hnd0, hws]
    unfold wsSubscribeReplay
    apply stateInv_congr _ _ (send_activeAudits _ _ _) (by rw [send_db])
    rw [foldl_send_eq_sendSeq]
    apply stateInv_congr _ _ (sendSeq_activeAudits _ _ _) (by rw [sendSeq_db])
    exact stateInv_setSubscribers st1 sid audit _ hg hnd h

theorem stateInv_wsSubscribe (st : ServerState) (ws sid : Nat) (h : StateInv st) :
    StateInv (wsSubscribe st ws sid) :=
  stateInv_wsSubscribeBody ws sid _ (stateInv_congr st _ rfl rfl h)

theorem stateInv_wsCloseUnsubSession (ws sid : Nat) (st1 : ServerState) (h : StateInv st1) :
    StateInv (wsCloseUnsubSession ws sid st1) := by
  unfold wsCloseUnsubSession
  cases hga : alGet st1.activeAudits sid with
  | none => exact h
  | some audit =>
    exact stateInv_setSubscribers st1 sid audit _ hga
      (List.Nodup.erase ws (h.subsNodup (sid, audit) (alGet_mem _ _ _ hga))) h

theorem stateInv_wsCloseUnsub (ws : Nat) (st1 : ServerState) (h : StateInv st1) :
    StateInv (wsCloseUnsub ws st1) := by
  unfold wsCloseUnsub
  split
  · rename_i sid hcc
    exact stateInv_wsCloseUnsubSession ws sid st1 h
  · exact h

theorem stateInv_wsClose (st : ServerState) (ws : Nat) (h : StateInv st) :
    StateInv (wsClose st ws) := by
  have h2 : StateInv (wsCloseUnsub ws (wsCloseSockets ws st)) :=
    stateInv_wsCloseUnsub ws _ (stateInv_congr st _ rfl rfl h)
  exact stateInv_congr (wsCloseUnsub ws (wsCloseSockets ws st)) (wsClose st ws) rfl rfl h2

theorem stateInv_stepOp (st : ServerState) (op : Op) (h : StateInv st) :
    StateInv (stepOp st op) := by
  cases op with
  | start u jt ji ts c e => exact stateInv_startAudit st u jt ji ts c e h
  | logEv id ts ty d ok => exact stateInv_logEvent st id ts ty d ok h
  | complete id ts success pv aw tw e u => exact stateInv_completeAudit st id ts success pv aw tw e u h
  | connect ws => exact stateInv_wsConnect st ws h
  | subscribe ws id => exact stateInv_wsSubscribe st ws id h
  | close ws => exact stateInv_wsClose st ws h

theorem stateInv_runOps (ops : List Op) :
    ∀ st : ServerState, StateInv st → StateInv (runOps st ops) := by
  induction ops with
  | nil => intro st h; exact h
  | cons op t ih => intro st h; exact ih _ (stateInv_stepOp st op h)

theorem runOps_cons (st : ServerState) (op : Op) (t : List Op) :
    runOps st (op :: t) = runOps (stepOp st op) t := rfl

theorem runOps_append (a b : List Op) :
    ∀ st : ServerState, runOps st (a ++ b) = runOps (runOps st a) b := by
  induction a with
  | nil => intro st; rfl
  | cons op t ih => intro st; rw [List.cons_append, runOps_cons, runOps_cons, ih]

/-- State right after a successful startAudit: the fresh session is
registered with counter 1 and the single job_started entry, the session
row is persisted, the job_started entry is persisted when its insert
succeeded, and the serial counter advanced. -/
theorem startAudit_state (st : ServerState) (u : Nat) (jt : String) (ji : Option Nat)
    (ts : Nat) (e : Bool) :
    alGet (startAudit st u jt ji ts true e).1.activeAudits st.db.nextId =
      some ⟨st.db.nextId, u, jt, ji, 1, [],
        [⟨1, ts, AuditEventType.job_started, EventData.jobStarted ⟨jt, none, none⟩⟩]⟩ ∧
    (startAudit st u jt ji ts true e).1.db.auditLogs =
      st.db.auditLogs ++ [⟨st.db.nextId, u, jt, ji, ts, none, "running", none⟩] ∧
    (startAudit st u jt ji ts true e).1.db.auditLogEntries =
      st.db.auditLogEntries ++ (if e then [⟨st.db.nextId, 1, ts, AuditEventType.job_started,
        EventData.jobStarted ⟨jt, none, none⟩⟩] else []) ∧
    (startAudit st u jt ji ts true e).1.db.nextId = st.db.nextId + 1 ∧
    (startAudit st u jt ji ts true e).1.sockets = st.sockets ∧
    (startAudit st u jt ji ts true e).1.clientConnections = st.clientConnections := by
  rw [startAudit_true]
  rw [logEvent_some _ _ _ _ _ _ ⟨st.db.nextId, u, jt, ji, 0, [], []⟩ (alGet_alSet_self _ _ _)]
  refine ⟨?_, ?_, ?_, ?_, ?_, ?_⟩
  · rw [sendAll_activeAudits]
    simp [alGet_alSet_self]
  · rw [sendAll_db]
  · rw [sendAll_db]
  · rw [sendAll_db]
  · rfl
  · rw [sendAll_clientConnections]

/-- One event submission of a trace: timestamp, type, payload, and whether
its durable insert succeeded. -/
structure LogSpec where
  ts : Nat
  ty : AuditEventType
  d : EventData
  ok : Bool
deriving DecidableEq, Repr

/-- The logEvent calls of a list of submissions, all against one session. -/
def logOps (sid : Nat) (evs : List LogSpec) : List Op :=
  evs.map (fun s => Op.logEv sid s.ts s.ty s.d s.ok)

/-- Buffered entries produced by a list of submissions starting at a given
sequence number. -/
def bufferEntries (startSeq : Nat) : List LogSpec → List AuditLogEntry
  | [] => []
  | s :: t => ⟨startSeq, s.ts, s.ty, s.d⟩ :: bufferEntries (startSeq + 1) t

/-- Durable rows produced by a list of submissions: exactly those whose
insert succeeded, each stamped with its sequence number. -/
def persistedRows (sid : Nat) (startSeq : Nat) : List LogSpec → List AuditEntryRow
  | [] => []
  | s :: t => (if s.ok then [⟨sid, startSeq, s.ts, s.ty, s.d⟩] else []) ++
      persistedRows sid (startSeq + 1) t

theorem bufferEntries_length (evs : List LogSpec) :
    ∀ s : Nat, (bufferEntries s evs).length = evs.length := by
  induction evs with
  | nil => intro s; rfl
  | cons x t ih => intro s; simp [bufferEntries, ih]

/-- Durable rows when every insert succeeded: one row per submission in
submission order. -/
def submittedRows (sid : Nat) (startSeq : Nat) : List LogSpec → List AuditEntryRow
  | [] => []
  | s :: t => ⟨sid, startSeq, s.ts, s.ty, s.d⟩ :: submittedRows sid (startSeq + 1) t

theorem persistedRows_all_ok (evs : List LogSpec) (hok : ∀ s ∈ evs, s.ok = true) :
    ∀ (sid n : Nat), persistedRows sid n evs = submittedRows sid n evs := by
  induction evs with
  | nil => intro sid n; rfl
  | cons x t ih =>
    intro sid n
    have hx : x.ok = true := hok x (List.mem_cons_self x t)
    simp only [persistedRows, submittedRows, hx, if_pos, List.singleton_append]
    rw [ih (fun s hs => hok s (List.mem_cons_of_mem x hs)) sid (n + 1)]
/-- Master characterization of a block of logEvent calls against a live
session: the counter advances by one per call, the buffer grows by exactly
the submitted entries stamped with consecutive sequence numbers, the
durable table grows by the rows whose insert succeeded, and nothing else
of the durable store changes. -/
theorem runOps_logOps (sid : Nat) (evs : List LogSpec) :
    ∀ (st : ServerState) (a : ActiveAudit), alGet st.activeAudits sid = some a →
      alGet (runOps st (logOps sid evs)).activeAudits sid =
        some { a with sequenceCounter := a.sequenceCounter + evs.length,
                      entries := a.entries ++ bufferEntries (a.sequenceCounter + 1) evs } ∧
      (runOps st (logOps sid evs)).db.auditLogEntries =
        st.db.auditLogEntries ++ persistedRows sid (a.sequenceCounter + 1) evs ∧
      (runOps st (logOps sid evs)).db.auditLogs = st.db.auditLogs ∧
      (runOps st (logOps sid evs)).db.nextId = st.db.nextId := by
  induction evs with
  | nil =>
    intro st a ha
    simp only [logOps, List.map_nil, runOps, bufferEntries, persistedRows,
      List.append_nil, List.length_nil, Nat.add_zero]
    exact ⟨by rw [ha], by trivial, by trivial, by trivial⟩
  | cons x t ih =>
    intro st a ha
    have hstep : stepOp st (Op.logEv sid x.ts x.ty x.d x.ok) = logEvent st sid x.ts x.ty x.d x.ok := rfl
    have hlog := logEvent_some st sid x.ts x.ty x.d x.ok a ha
    have hrest := ih (logEvent st sid x.ts x.ty x.d x.ok)
      { a with sequenceCounter := a.sequenceCounter + 1,
               entries := a.entries ++ [⟨a.sequenceCounter + 1, x.ts, x.ty, x.d⟩] }
      (by rw [hlog, sendAll_activeAudits]; simp [alGet_alSet_self])
    have hops : logOps sid (x :: t) = Op.logEv sid x.ts x.ty x.d x.ok :: logOps sid t := rfl
    rw [hops, runOps_cons, hstep]
    have hcnt : a.sequenceCounter + 1 + t.length = a.sequenceCounter + (t.length + 1) := by
      omega
    refine ⟨?_, ?_, ?_, ?_⟩
    · rw [hrest.1]
      simp only [List.length_cons, bufferEntries, List.append_assoc, List.singleton_append, hcnt]
    · rw [hrest.2.1, hlog, sendAll_db]
      simp only [persistedRows, List.append_assoc, List.singleton_append]
    · rw [hrest.2.2.1, hlog, sendAll_db]
    · rw [hrest.2.2.2, hlog, sendAll_db]

theorem alErase_of_none {β : Type} (l : List (Nat × β)) (k : Nat) (h : alGet l k = none) :
    alErase l k = l := by
  induction l with
  | nil => rfl
  | cons p t ih =>
    obtain ⟨k1, v1⟩ := p
    by_cases hp : k1 = k
    · simp [alGet, hp] at h
    · simp only [alGet, if_neg hp] at h
      simp [alErase, hp, ih h]

theorem logEvent_none_proj (st : ServerState) (sid ts : Nat) (ty : AuditEventType)
    (d : EventData) (ok : Bool) (h : alGet st.activeAudits sid = none) :
    (logEvent st sid ts ty d ok).activeAudits = st.activeAudits ∧
    (logEvent st sid ts ty d ok).sockets = st.sockets ∧
    (logEvent st sid ts ty d ok).clientConnections = st.clientConnections ∧
    (logEvent st sid ts ty d ok).db.auditLogs = st.db.auditLogs ∧
    (logEvent st sid ts ty d ok).db.nextId = st.db.nextId ∧
    (logEvent st sid ts ty d ok).db.auditLogEntries =
      st.db.auditLogEntries ++ (if ok then [⟨sid, 1, ts, ty, d⟩] else []) := by
  rw [logEvent_none st sid ts ty d ok h]
  exact ⟨rfl, rfl, rfl, rfl, rfl, rfl⟩

theorem logEvent_some_registry (st : ServerState) (sid ts : Nat) (ty : AuditEventType)
    (d : EventData) (ok : Bool) (a : ActiveAudit) (ha : alGet st.activeAudits sid = some a) :
    alGet (logEvent st sid ts ty d ok).activeAudits sid =
      some { a with sequenceCounter := a.sequenceCounter + 1,
                    entries := a.entries ++ [⟨a.sequenceCounter + 1, ts, ty, d⟩] } := by
  rw [logEvent_some st sid ts ty d ok a ha, sendAll_activeAudits]
  simp [alGet_alSet_self]

theorem completeAudit_eq_stages (st : ServerState) (sid ts : Nat) (success : Bool)
    (pv : Option String) (aw tw : Option Nat) (eok uok : Bool) :
    completeAudit st sid ts success pv aw tw eok uok =
      (fun st3 : ServerState => { st3 with activeAudits := alErase st3.activeAudits sid })
        (completeAuditNotify sid success
          (completeAuditUpdate sid ts success pv uok
            (logEvent st sid ts AuditEventType.job_completed
              (EventData.jobCompleted ⟨jobTypeOrUnknown st sid, tw, aw, success⟩) eok))) := rfl

theorem completeAuditUpdate_activeAudits (sid ts : Nat) (success : Bool) (pv : Option String)
    (uok : Bool) (st1 : ServerState) :
    (completeAuditUpdate sid ts success pv uok st1).activeAudits = st1.activeAudits := by
  unfold completeAuditUpdate
  split <;> rfl

theorem completeAuditUpdate_sockets (sid ts : Nat) (success : Bool) (pv : Option String)
    (uok : Bool) (st1 : ServerState) :
    (completeAuditUpdate sid ts success pv uok st1).sockets = st1.sockets := by
  unfold completeAuditUpdate
  split <;> rfl

theorem completeAuditUpdate_clientConnections (sid ts : Nat) (success : Bool)
    (pv : Option String) (uok : Bool) (st1 : ServerState) :
    (completeAuditUpdate sid ts success pv uok st1).clientConnections =
      st1.clientConnections := by
  unfold completeAuditUpdate
  split <;> rfl

theorem completeAuditUpdate_entries (sid ts : Nat) (success : Bool) (pv : Option String)
    (uok : Bool) (st1 : ServerState) :
    (completeAuditUpdate sid ts success pv uok st1).db.auditLogEntries =
      st1.db.auditLogEntries := by
  unfold completeAuditUpdate
  split <;> rfl

theorem completeAuditUpdate_nextId (sid ts : Nat) (success : Bool) (pv : Option String)
    (uok : Bool) (st1 : ServerState) :
    (completeAuditUpdate sid ts success pv uok st1).db.nextId = st1.db.nextId := by
  unfold completeAuditUpdate
  split <;> rfl

theorem completeAuditUpdate_logs (sid ts : Nat) (success : Bool) (pv : Option String)
    (uok : Bool) (st1 : ServerState) :
    (completeAuditUpdate sid ts success pv uok st1).db.auditLogs =
      (if uok then st1.db.auditLogs.map (fun r =>
          if r.id = sid then
            { r with completedAt := some ts,
                     status := if success then "completed" else "failed",
                     finalOutputPreview := match pv with
                       | some s => some (strTake 500 s)
                       | none => r.finalOutputPreview }
          else r)
       else st1.db.auditLogs) := by
  unfold completeAuditUpdate
  split <;> rename_i hu <;> simp [hu]

theorem completeAuditNotify_none (sid : Nat) (success : Bool) (st2 : ServerState)
    (h : alGet st2.activeAudits sid = none) :
    completeAuditNotify sid success st2 = st2 := by
  simp [completeAuditNotify, h]

theorem completeAuditNotify_db (sid : Nat) (success : Bool) (st2 : ServerState) :
    (completeAuditNotify sid success st2).db = st2.db := by
  unfold completeAuditNotify
  split
  · rw [sendAll_db]
  · rfl

theorem completeAuditNotify_activeAudits (sid : Nat) (success : Bool) (st2 : ServerState) :
    (completeAuditNotify sid success st2).activeAudits = st2.activeAudits := by
  unfold completeAuditNotify
  split
  · rw [sendAll_activeAudits]
  · rfl

theorem completeAuditNotify_clientConnections (sid : Nat) (success : Bool)
    (st2 : ServerState) :
    (completeAuditNotify sid success st2).clientConnections = st2.clientConnections := by
  unfold completeAuditNotify
  split
  · rw [sendAll_clientConnections]
  · rfl

theorem strTake_length_le (n : Nat) (s : String) : (strTake n s).length ≤ n := by
  have : (strTake n s).length = (s.data.take n).length := rfl
  rw [this]
  exact List.length_take_le n s.data

theorem strTake_of_le (n : Nat) (s : String) (h : s.length ≤ n) : strTake n s = s := by
  unfold strTake
  rw [List.take_of_length_le h]

theorem submittedRows_map_seq (evs : List LogSpec) :
    ∀ (sid s : Nat), (submittedRows sid s evs).map (fun r => r.sequenceNum) =
      List.range' s evs.length := by
  induction evs with
  | nil => intro sid s; rfl
  | cons x t ih =>
    intro sid s
    simp only [submittedRows, List.map_cons, List.length_cons, List.range'_succ]
    rw [ih sid (s + 1)]

theorem submittedRows_sid (evs : List LogSpec) :
    ∀ (sid s : Nat) (r : AuditEntryRow), r ∈ submittedRows sid s evs → r.auditLogId = sid := by
  induction evs with
  | nil => intro sid s r hr; simp [submittedRows] at hr
  | cons x t ih =>
    intro sid s r hr
    rcases List.mem_cons.mp hr with h1 | h1
    · rw [h1]
    · exact ih sid (s + 1) r h1

theorem insertBySeq_of_lt (r : AuditEntryRow) (l : List AuditEntryRow)
    (h : ∀ x ∈ l, r.sequenceNum < x.sequenceNum) : insertBySeq r l = r :: l := by
  cases l with
  | nil => rfl
  | cons x t => simp [insertBySeq, h x (List.mem_cons_self x t)]

theorem sortBySeq_sorted (l : List AuditEntryRow)
    (h : List.Pairwise (fun a b => a.sequenceNum < b.sequenceNum) l) : sortBySeq l = l := by
  induction l with
  | nil => rfl
  | cons x t ih =>
    rcases List.pairwise_cons.mp h with ⟨hx, ht⟩
    simp only [sortBySeq]
    rw [ih ht]
    exact insertBySeq_of_lt x t hx

/-- C3 counterexample: a logEvent call whose sessionId has no ActiveSession
does not fail and is not effect-free: on the empty initial state it
persists a durable entry row with sequenceNum 1 for the unknown session,
refuting that nothing is persisted and that the call has no effect. -/
theorem claim3_counterexample :
    (logEvent initState 5 0 AuditEventType.error
        (EventData.errorEvent ⟨"e", "m", "c", none, true⟩) true).db.auditLogEntries =
      [⟨5, 1, 0, AuditEventType.error, EventData.errorEvent ⟨"e", "m", "c", none, true⟩⟩] := rfl

/-- C3 amended: a logEvent call whose sessionId has no ActiveSession does
not raise any error (logEvent is total and returns normally), performs no
in-memory change and broadcasts nothing — the registry, every socket and
clientConnections are untouched — but it still attempts the durable
insert: when that insert succeeds, one entry row with sequenceNum 1 is
persisted for the session. -/
theorem claim3_unknown_session (st : ServerState) (sid ts : Nat) (ty : AuditEventType)
    (d : EventData) (ok : Bool) (h : alGet st.activeAudits sid = none) :
    (logEvent st sid ts ty d ok).activeAudits = st.activeAudits ∧
    (logEvent st sid ts ty d ok).sockets = st.sockets ∧
    (logEvent st sid ts ty d ok).clientConnections = st.clientConnections ∧
    (logEvent st sid ts ty d ok).db.auditLogs = st.db.auditLogs ∧
    (logEvent st sid ts ty d ok).db.auditLogEntries =
      st.db.auditLogEntries ++ (if ok then [⟨sid, 1, ts, ty, d⟩] else []) := by
  have hp := logEvent_none_proj st sid ts ty d ok h
  exact ⟨hp.1, hp.2.1, hp.2.2.1, hp.2.2.2.1, hp.2.2.2.2.2⟩

/-- Witness for the amended C3 at a concrete input. -/
theorem claim3_unknown_session_witness :
    alGet initState.activeAudits 5 = none ∧
    ((logEvent initState 5 0 AuditEventType.job_started
        (EventData.jobStarted ⟨"x", none, none⟩) true).activeAudits = initState.activeAudits ∧
     (logEvent initState 5 0 AuditEventType.job_started
        (EventData.jobStarted ⟨"x", none, none⟩) true).sockets = initState.sockets ∧
     (logEvent initState 5 0 AuditEventType.job_started
        (EventData.jobStarted ⟨"x", none, none⟩) true).clientConnections =
        initState.clientConnections ∧
     (logEvent initState 5 0 AuditEventType.job_started
        (EventData.jobStarted ⟨"x", none, none⟩) true).db.auditLogs = initState.db.auditLogs ∧
     (logEvent initState 5 0 AuditEventType.job_started
        (EventData.jobStarted ⟨"x", none, none⟩) true).db.auditLogEntries =
       initState.db.auditLogEntries ++ (if true then [⟨5, 1, 0, AuditEventType.job_started,
         EventData.jobStarted ⟨"x", none, none⟩⟩] else [])) :=
  ⟨rfl, claim3_unknown_session initState 5 0 AuditEventType.job_started
    (EventData.jobStarted ⟨"x", none, none⟩) true rfl⟩

/-- C5 counterexample: completing session 1 twice. After the first
completeAudit the store holds 2 entry rows and completedAt = 5; the second
completeAudit (timestamp 9) persists a third job_completed row with
sequenceNum 1 and overwrites completedAt with 9, so it performs durable
state changes and a second durable status update — it is not a no-op. -/
theorem claim5_counterexample :
    ((runOps initState [Op.start 1 "j" none 0 true true,
        Op.complete 1 5 true none none none true true]).db.auditLogEntries.length = 2 ∧
     (getAuditLog (runOps initState [Op.start 1 "j" none 0 true true,
        Op.complete 1 5 true none none none true true]).db 1).map (fun r => r.completedAt) =
       some (some 5)) ∧
    ((runOps initState [Op.start 1 "j" none 0 true true,
        Op.complete 1 5 true none none none true true,
        Op.complete 1 9 true none none none true true]).db.auditLogEntries.length = 3 ∧
     (getAuditLog (runOps initState [Op.start 1 "j" none 0 true true,
        Op.complete 1 5 true none none none true true,
        Op.complete 1 9 true none none none true true]).db 1).map (fun r => r.completedAt) =
       some (some 9)) :=
  ⟨⟨rfl, rfl⟩, ⟨rfl, rfl⟩⟩

/-- C5 amended: a completeAudit call that finds no ActiveSession (the
session was already completed, or never existed) delivers no message to
any socket — in particular it does not re-notify subscribers, so two
completions still produce exactly one terminal notification — and leaves
the registry and connections untouched; but it is not a durable no-op: it
still persists a job_completed entry with sequenceNum 1 and jobType
"unknown" when that insert succeeds, and it re-runs the durable status
update (overwriting completedAt and status, and the stored preview when a
new preview is passed — an omitted preview leaves the stored column
unchanged) when that update succeeds. -/
theorem claim5_second_complete (st : ServerState) (sid ts : Nat) (success : Bool)
    (pv : Option String) (aw tw : Option Nat) (eok uok : Bool)
    (h : alGet st.activeAudits sid = none) :
    (completeAudit st sid ts success pv aw tw eok uok).sockets = st.sockets ∧
    (completeAudit st sid ts success pv aw tw eok uok).clientConnections =
      st.clientConnections ∧
    (completeAudit st sid ts success pv aw tw eok uok).activeAudits = st.activeAudits ∧
    (completeAudit st sid ts success pv aw tw eok uok).db.auditLogEntries =
      st.db.auditLogEntries ++ (if eok then [⟨sid, 1, ts, AuditEventType.job_completed,
        EventData.jobCompleted ⟨"unknown", tw, aw, success⟩⟩] else []) ∧
    (completeAudit st sid ts success pv aw tw eok uok).db.auditLogs =
      (if uok then st.db.auditLogs.map (fun r =>
          if r.id = sid then
            { r with completedAt := some ts,
                     status := if success then "completed" else "failed",
                     finalOutputPreview := match pv with
                       | some s => some (strTake 500 s)
                       | none => r.finalOutputPreview }
          else r)
       else st.db.auditLogs) := by
  have hjt : jobTypeOrUnknown st sid = "unknown" := by simp [jobTypeOrUnknown, h]
  rw [completeAudit_eq_stages, hjt]
  have hp := logEvent_none_proj st sid ts AuditEventType.job_completed
    (EventData.jobCompleted ⟨"unknown", tw, aw, success⟩) eok h
  generalize hg1 : logEvent st sid ts AuditEventType.job_completed
    (EventData.jobCompleted ⟨"unknown", tw, aw, success⟩) eok = st1 at hp ⊢
  have h2A : (completeAuditUpdate sid ts success pv uok st1).activeAudits = st.activeAudits := by
    rw [completeAuditUpdate_activeAudits, hp.1]
  have hnone2 : alGet (completeAuditUpdate sid ts success pv uok st1).activeAudits sid = none := by
    rw [h2A]
    exact h
  rw [completeAuditNotify_none sid success _ hnone2]
  refine ⟨?_, ?_, ?_, ?_, ?_⟩
  · show (completeAuditUpdate sid ts success pv uok st1).sockets = st.sockets
    rw [completeAuditUpdate_sockets, hp.2.1]
  · show (completeAuditUpdate sid ts success pv uok st1).clientConnections =
      st.clientConnections
    rw [completeAuditUpdate_clientConnections, hp.2.2.1]
  · show alErase (completeAuditUpdate sid ts success pv uok st1).activeAudits sid =
      st.activeAudits
    rw [h2A]
    exact alErase_of_none _ _ h
  · show (completeAuditUpdate sid ts success pv uok st1).db.auditLogEntries =
      st.db.auditLogEntries ++ _
    rw [completeAuditUpdate_entries, hp.2.2.2.2.2]
  · show (completeAuditUpdate sid ts success pv uok st1).db.auditLogs = _
    rw [completeAuditUpdate_logs, hp.2.2.2.1]

/-- Witness for the amended C5: session 1 is completed once with preview
"x", then completed again with no preview; the second call overwrites
completedAt with 9 but leaves the stored preview "x" unchanged. -/
theorem claim5_second_complete_witness :
    alGet (runOps initState [Op.start 1 "j" none 0 true true,
        Op.complete 1 5 true (some "x") none none true true]).activeAudits 1 = none ∧
    (getAuditLog (runOps initState [Op.start 1 "j" none 0 true true,
        Op.complete 1 5 true (some "x") none none true true]).db 1).map
      (fun r => r.finalOutputPreview) = some (some "x") ∧
    (getAuditLog (completeAudit (runOps initState [Op.start 1 "j" none 0 true true,
        Op.complete 1 5 true (some "x") none none true true]) 1 9 true none none none
        true true).db 1).map (fun r => r.finalOutputPreview) = some (some "x") ∧
    ((completeAudit (runOps initState [Op.start 1 "j" none 0 true true,
        Op.complete 1 5 true (some "x") none none true true]) 1 9 true none none none
        true true).sockets =
      (runOps initState [Op.start 1 "j" none 0 true true,
        Op.complete 1 5 true (some "x") none none true true]).sockets ∧
     (completeAudit (runOps initState [Op.start 1 "j" none 0 true true,
        Op.complete 1 5 true (some "x") none none true true]) 1 9 true none none none
        true true).clientConnections =
      (runOps initState [Op.start 1 "j" none 0 true true,
        Op.complete 1 5 true (some "x") none none true true]).clientConnections ∧
     (completeAudit (runOps initState [Op.start 1 "j" none 0 true true,
        Op.complete 1 5 true (some "x") none none true true]) 1 9 true none none none
        true true).activeAudits =
      (runOps initState [Op.start 1 "j" none 0 true true,
        Op.complete 1 5 true (some "x") none none true true]).activeAudits ∧
     (completeAudit (runOps initState [Op.start 1 "j" none 0 true true,
        Op.complete 1 5 true (some "x") none none true true]) 1 9 true none none none
        true true).db.auditLogEntries =
      (runOps initState [Op.start 1 "j" none 0 true true,
        Op.complete 1 5 true (some "x") none none true true]).db.auditLogEntries ++
        [⟨1, 1, 9, AuditEventType.job_completed,
          EventData.jobCompleted ⟨"unknown", none, none, true⟩⟩] ∧
     (completeAudit (runOps initState [Op.start 1 "j" none 0 true true,
        Op.complete 1 5 true (some "x") none none true true]) 1 9 true none none none
        true true).db.auditLogs =
      (runOps initState [Op.start 1 "j" none 0 true true,
        Op.complete 1 5 true (some "x") none none true true]).db.auditLogs.map (fun r =>
          if r.id = 1 then
            { r with completedAt := some 9, status := "completed",
                     finalOutputPreview := r.finalOutputPreview }
          else r)) :=
  ⟨rfl, rfl, rfl, claim5_second_complete _ 1 9 true none none none true true rfl⟩

theorem submittedRows_length (evs : List LogSpec) :
    ∀ (sid s : Nat), (submittedRows sid s evs).length = evs.length := by
  induction evs with
  | nil => intro sid s; rfl
  | cons x t ih => intro sid s; simp [submittedRows, ih]

/-- C6: after N submissions against a freshly started session (the initial
job_started plus any further events), all of whose durable inserts
succeeded, getAuditEntries returns exactly those N events, sorted by
sequenceNum ascending, in the order they were submitted. -/
theorem claim6_getEvents_order (u : Nat) (jt : String) (ji : Option Nat) (ts0 : Nat)
    (evs : List LogSpec) (hok : ∀ s ∈ evs, s.ok = true) :
    getAuditEntries (runOps initState
        (Op.start u jt ji ts0 true true :: logOps 1 evs)).db 1 =
      ⟨1, 1, ts0, AuditEventType.job_started, EventData.jobStarted ⟨jt, none, none⟩⟩ ::
        submittedRows 1 2 evs ∧
    (getAuditEntries (runOps initState
        (Op.start u jt ji ts0 true true :: logOps 1 evs)).db 1).length = evs.length + 1 := by
  have hs := startAudit_state initState u jt ji ts0 true
  have hrun := runOps_logOps 1 evs (startAudit initState u jt ji ts0 true true).1
    ⟨1, u, jt, ji, 1, [], [⟨1, ts0, AuditEventType.job_started,
      EventData.jobStarted ⟨jt, none, none⟩⟩]⟩ hs.1
  have hstep : stepOp initState (Op.start u jt ji ts0 true true)
      = (startAudit initState u jt ji ts0 true true).1 := rfl
  have hrows : (runOps initState
      (Op.start u jt ji ts0 true true :: logOps 1 evs)).db.auditLogEntries
      = ⟨1, 1, ts0, AuditEventType.job_started, EventData.jobStarted ⟨jt, none, none⟩⟩ ::
        submittedRows 1 2 evs := by
    rw [runOps_cons, hstep, hrun.2.1, hs.2.2.1, persistedRows_all_ok evs hok]
    exact rfl
  have hmapseq : (((⟨1, 1, ts0, AuditEventType.job_started,
      EventData.jobStarted ⟨jt, none, none⟩⟩ : AuditEntryRow) ::
        submittedRows 1 2 evs).map (fun r => r.sequenceNum)) =
      List.range' 1 (evs.length + 1) := by
    simp [submittedRows_map_seq, List.range'_succ]
  have hpw : List.Pairwise (fun a b : AuditEntryRow => a.sequenceNum < b.sequenceNum)
      ((⟨1, 1, ts0, AuditEventType.job_started,
        EventData.jobStarted ⟨jt, none, none⟩⟩ : AuditEntryRow) :: submittedRows 1 2 evs) := by
    have hlt := List.pairwise_lt_range' 1 (evs.length + 1)
    rw [← hmapseq] at hlt
    exact List.pairwise_map.mp hlt
  have hfilter : (((⟨1, 1, ts0, AuditEventType.job_started,
      EventData.jobStarted ⟨jt, none, none⟩⟩ : AuditEntryRow) ::
        submittedRows 1 2 evs).filter (fun r => r.auditLogId = 1)) =
      (⟨1, 1, ts0, AuditEventType.job_started,
        EventData.jobStarted ⟨jt, none, none⟩⟩ : AuditEntryRow) :: submittedRows 1 2 evs := by
    apply List.filter_eq_self.mpr
    intro r hr
    rcases List.mem_cons.mp hr with h1 | h1
    · rw [h1]
      simp
    · simp [submittedRows_sid evs 1 2 r h1]
  have hmain : getAuditEntries (runOps initState
      (Op.start u jt ji ts0 true true :: logOps 1 evs)).db 1 =
      ⟨1, 1, ts0, AuditEventType.job_started, EventData.jobStarted ⟨jt, none, none⟩⟩ ::
        submittedRows 1 2 evs := by
    unfold getAuditEntries
    rw [hrows, hfilter, sortBySeq_sorted _ hpw]
  refine ⟨hmain, ?_⟩
  rw [hmain]
  simp [submittedRows_length]

/-- Witness for C6 at a concrete trace: one chunk_processed submission
after the start, both persisted. -/
theorem claim6_getEvents_order_witness :
    (∀ s ∈ [(⟨3, AuditEventType.chunk_processed,
        EventData.chunkProcessed ⟨0, 10, 12, 11, true, none, none⟩, true⟩ : LogSpec)],
      s.ok = true) ∧
    (getAuditEntries (runOps initState
        (Op.start 1 "reconstruction" none 0 true true :: logOps 1
          [⟨3, AuditEventType.chunk_processed,
            EventData.chunkProcessed ⟨0, 10, 12, 11, true, none, none⟩, true⟩])).db 1 =
      ⟨1, 1, 0, AuditEventType.job_started,
        EventData.jobStarted ⟨"reconstruction", none, none⟩⟩ ::
        submittedRows 1 2 [⟨3, AuditEventType.chunk_processed,
          EventData.chunkProcessed ⟨0, 10, 12, 11, true, none, none⟩, true⟩] ∧
     (getAuditEntries (runOps initState
        (Op.start 1 "reconstruction" none 0 true true :: logOps 1
          [⟨3, AuditEventType.chunk_processed,
            EventData.chunkProcessed ⟨0, 10, 12, 11, true, none, none⟩, true⟩])).db 1).length =
       [(⟨3, AuditEventType.chunk_processed,
          EventData.chunkProcessed ⟨0, 10, 12, 11, true, none, none⟩, true⟩ : LogSpec)].length
         + 1) :=
  ⟨by decide, claim6_getEvents_order 1 "reconstruction" none 0
    [⟨3, AuditEventType.chunk_processed,
      EventData.chunkProcessed ⟨0, 10, 12, 11, true, none, none⟩, true⟩] (by decide)⟩

/-- C10: in every reachable state, every ActiveAudit in the registry
satisfies the buffer invariant established by startAudit and preserved by
every completed logEvent call: sequenceCounter equals entries.length and
the entry at index i carries sequenceNum i + 1 — the buffer is exactly the
contiguous prefix of the session's event stream. -/
theorem claim10_buffer_invariant (ops : List Op) (sid : Nat) (a : ActiveAudit)
    (ha : alGet (runOps initState ops).activeAudits sid = some a) :
    a.sequenceCounter = a.entries.length ∧
    ∀ i (h : i < a.entries.length), (a.entries.get ⟨i, h⟩).sequenceNum = i + 1 := by
  have hinv := stateInv_runOps ops initState stateInv_initState
  have hmem := alGet_mem _ _ _ ha
  have hcnt : a.sequenceCounter = a.entries.length := hinv.wfCounter (sid, a) hmem
  have hs : a.entries.map (fun e => e.sequenceNum) = List.range' 1 a.entries.length :=
    hinv.wfSeq (sid, a) hmem
  refine ⟨hcnt, ?_⟩
  intro i h
  have hlen : i < (a.entries.map (fun e => e.sequenceNum)).length := by simpa using h
  have h1 : (a.entries.map (fun e => e.sequenceNum)).get ⟨i, hlen⟩
      = (a.entries.get ⟨i, h⟩).sequenceNum := by
    rw [List.get_map]
  have h2 := List.get_of_eq hs ⟨i, hlen⟩
  rw [h1] at h2
  rw [h2, List.get_range']
  simp [Nat.add_comm]

/-- Witness for C10: the state after one successful startAudit. -/
theorem claim10_buffer_invariant_witness :
    alGet (runOps initState [Op.start 1 "r" none 0 true true]).activeAudits 1 =
      some ⟨1, 1, "r", none, 1, [],
        [⟨1, 0, AuditEventType.job_started, EventData.jobStarted ⟨"r", none, none⟩⟩]⟩ ∧
    ((⟨1, 1, "r", none, 1, [],
        [⟨1, 0, AuditEventType.job_started,
          EventData.jobStarted ⟨"r", none, none⟩⟩]⟩ : ActiveAudit).sequenceCounter =
      (⟨1, 1, "r", none, 1, [],
        [⟨1, 0, AuditEventType.job_started,
          EventData.jobStarted ⟨"r", none, none⟩⟩]⟩ : ActiveAudit).entries.length ∧
     ∀ i (h : i < (⟨1, 1, "r", none, 1, [],
        [⟨1, 0, AuditEventType.job_started,
          EventData.jobStarted ⟨"r", none, none⟩⟩]⟩ : ActiveAudit).entries.length),
       ((⟨1, 1, "r", none, 1, [],
        [⟨1, 0, AuditEventType.job_started,
          EventData.jobStarted ⟨"r", none, none⟩⟩]⟩ : ActiveAudit).entries.get
            ⟨i, h⟩).sequenceNum = i + 1) :=
  ⟨rfl, claim10_buffer_invariant [Op.start 1 "r" none 0 true true] 1 _ rfl⟩

/-- C4: when the durable insert of a logEvent call on an active session
fails, live delivery is not aborted: the durable store is unchanged, but
the sequence counter is still incremented, the entry is still appended to
the in-memory buffer, and the entry message is still delivered to a
subscribed open socket; logEvent is total, so no exception escapes in a
way that skips incrementing or broadcasting. -/
theorem claim4_insert_failure_still_delivers (st : ServerState) (sid ts : Nat)
    (ty : AuditEventType) (d : EventData) (a : ActiveAudit) (ws : Nat) (rcv : List WireMsg)
    (ha : alGet st.activeAudits sid = some a)
    (hnd : a.subscribers.Nodup)
    (hws : ws ∈ a.subscribers)
    (hsock : alGet st.sockets ws = some ⟨true, rcv⟩) :
    (logEvent st sid ts ty d false).db = st.db ∧
    alGet (logEvent st sid ts ty d false).activeAudits sid =
      some { a with sequenceCounter := a.sequenceCounter + 1,
                    entries := a.entries ++ [⟨a.sequenceCounter + 1, ts, ty, d⟩] } ∧
    alGet (logEvent st sid ts ty d false).sockets ws =
      some ⟨true, rcv ++ [WireMsg.entryMsg sid ⟨a.sequenceCounter + 1, ts, ty, d⟩]⟩ := by
  refine ⟨?_, logEvent_some_registry st sid ts ty d false a ha, ?_⟩
  · rw [logEvent_some st sid ts ty d false a ha, sendAll_db]
    simp
  · rw [logEvent_some st sid ts ty d false a ha]
    exact sendAll_open_mem a.subscribers _ ws hnd hws _ rcv hsock

/-- Witness for C4: session 1 with one open subscriber, insert failing. -/
theorem claim4_insert_failure_still_delivers_witness :
    alGet (runOps initState [Op.start 1 "j" none 0 true true, Op.connect 7,
        Op.subscribe 7 1]).activeAudits 1 =
      some ⟨1, 1, "j", none, 1, [7],
        [⟨1, 0, AuditEventType.job_started, EventData.jobStarted ⟨"j", none, none⟩⟩]⟩ ∧
    ([7] : List Nat).Nodup ∧
    7 ∈ ([7] : List Nat) ∧
    alGet (runOps initState [Op.start 1 "j" none 0 true true, Op.connect 7,
        Op.subscribe 7 1]).sockets 7 =
      some ⟨true, [WireMsg.entryMsg 1 ⟨1, 0, AuditEventType.job_started,
        EventData.jobStarted ⟨"j", none, none⟩⟩, WireMsg.subscribedMsg 1]⟩ ∧
    ((logEvent (runOps initState [Op.start 1 "j" none 0 true true, Op.connect 7,
        Op.subscribe 7 1]) 1 4 AuditEventType.error
        (EventData.errorEvent ⟨"e", "m", "c", none, true⟩) false).db =
      (runOps initState [Op.start 1 "j" none 0 true true, Op.connect 7,
        Op.subscribe 7 1]).db ∧
     alGet (logEvent (runOps initState [Op.start 1 "j" none 0 true true, Op.connect 7,
        Op.subscribe 7 1]) 1 4 AuditEventType.error
        (EventData.errorEvent ⟨"e", "m", "c", none, true⟩) false).activeAudits 1 =
      some ⟨1, 1, "j", none, 2, [7],
        [⟨1, 0, AuditEventType.job_started, EventData.jobStarted ⟨"j", none, none⟩⟩,
         ⟨2, 4, AuditEventType.error, EventData.errorEvent ⟨"e", "m", "c", none, true⟩⟩]⟩ ∧
     alGet (logEvent (runOps initState [Op.start 1 "j" none 0 true true, Op.connect 7,
        Op.subscribe 7 1]) 1 4 AuditEventType.error
        (EventData.errorEvent ⟨"e", "m", "c", none, true⟩) false).sockets 7 =
      some ⟨true, [WireMsg.entryMsg 1 ⟨1, 0, AuditEventType.job_started,
          EventData.jobStarted ⟨"j", none, none⟩⟩, WireMsg.subscribedMsg 1,
        WireMsg.entryMsg 1 ⟨2, 4, AuditEventType.error,
          EventData.errorEvent ⟨"e", "m", "c", none, true⟩⟩]⟩) :=
  ⟨rfl, by decide, by decide, rfl,
    claim4_insert_failure_still_delivers
      (runOps initState [Op.start 1 "j" none 0 true true, Op.connect 7, Op.subscribe 7 1])
      1 4 AuditEventType.error
      (EventData.errorEvent ⟨"e", "m", "c", none, true⟩)
      ⟨1, 1, "j", none, 1, [7],
        [⟨1, 0, AuditEventType.job_started, EventData.jobStarted ⟨"j", none, none⟩⟩]⟩
      7 [WireMsg.entryMsg 1 ⟨1, 0, AuditEventType.job_started,
          EventData.jobStarted ⟨"j", none, none⟩⟩, WireMsg.subscribedMsg 1]
      rfl (by decide) (by decide) rfl⟩

/-- C9: logDbQuery stores a db_query payload whose sql field is the input
truncated to its first 500 characters (hence at most 500 characters, and
equal to the input when the input is short enough), and logLlmCall stores
an llm_call payload whose promptPreview and responsePreview fields are the
inputs truncated to 200 characters each; every other payload field equals
the corresponding input unchanged. -/
theorem claim9_preview_truncation (st : ServerState) (sid ts : Nat) (a : ActiveAudit)
    (sql table oper : String) (rows dur : Nat) (params : Option (List String))
    (model purpose prompt resp : String) (inTok outTok dur2 : Nat) (ci : Option Nat)
    (ok : Bool) (ha : alGet st.activeAudits sid = some a) :
    (alGet (logDbQuery st sid ts sql table oper rows dur params ok).activeAudits sid =
      some { a with sequenceCounter := a.sequenceCounter + 1,
                    entries := a.entries ++ [⟨a.sequenceCounter + 1, ts,
                      AuditEventType.db_query, EventData.dbQuery
                        ⟨strTake 500 sql, params, table, oper, rows, dur⟩⟩] } ∧
     (strTake 500 sql).length ≤ 500 ∧ (sql.length ≤ 500 → strTake 500 sql = sql)) ∧
    (alGet (logLlmCall st sid ts model purpose inTok outTok prompt resp dur2 ci
        ok).activeAudits sid =
      some { a with sequenceCounter := a.sequenceCounter + 1,
                    entries := a.entries ++ [⟨a.sequenceCounter + 1, ts,
                      AuditEventType.llm_call, EventData.llmCall
                        ⟨model, purpose, ci, inTok, outTok, strTake 200 prompt,
                         strTake 200 resp, dur2⟩⟩] } ∧
     (strTake 200 prompt).length ≤ 200 ∧ (strTake 200 resp).length ≤ 200 ∧
     (prompt.length ≤ 200 → strTake 200 prompt = prompt) ∧
     (resp.length ≤ 200 → strTake 200 resp = resp)) := by
  refine ⟨⟨?_, strTake_length_le 500 sql, strTake_of_le 500 sql⟩,
          ⟨?_, strTake_length_le 200 prompt, strTake_length_le 200 resp,
           strTake_of_le 200 prompt, strTake_of_le 200 resp⟩⟩
  · exact logEvent_some_registry st sid ts AuditEventType.db_query
      (EventData.dbQuery ⟨strTake 500 sql, params, table, oper, rows, dur⟩) ok a ha
  · exact logEvent_some_registry st sid ts AuditEventType.llm_call
      (EventData.llmCall ⟨model, purpose, ci, inTok, outTok, strTake 200 prompt,
        strTake 200 resp, dur2⟩) ok a ha

/-- Witness for C9 at a concrete active session. -/
theorem claim9_preview_truncation_witness :
    alGet (runOps initState [Op.start 1 "j" none 0 true true]).activeAudits 1 =
      some ⟨1, 1, "j", none, 1, [],
        [⟨1, 0, AuditEventType.job_started, EventData.jobStarted ⟨"j", none, none⟩⟩]⟩ ∧
    ((alGet (logDbQuery (runOps initState [Op.start 1 "j" none 0 true true]) 1 2
        "select 1" "users" "SELECT" 3 9 none true).activeAudits 1 =
      some ⟨1, 1, "j", none, 2, [],
        [⟨1, 0, AuditEventType.job_started, EventData.jobStarted ⟨"j", none, none⟩⟩,
         ⟨2, 2, AuditEventType.db_query, EventData.dbQuery
           ⟨strTake 500 "select 1", none, "users", "SELECT", 3, 9⟩⟩]⟩ ∧
      (strTake 500 "select 1").length ≤ 500 ∧
      ("select 1".length ≤ 500 → strTake 500 "select 1" = "select 1")) ∧
     (alGet (logLlmCall (runOps initState [Op.start 1 "j" none 0 true true]) 1 2
        "m" "p" 5 6 "pp" "rr" 9 none true).activeAudits 1 =
      some ⟨1, 1, "j", none, 2, [],
        [⟨1, 0, AuditEventType.job_started, EventData.jobStarted ⟨"j", none, none⟩⟩,
         ⟨2, 2, AuditEventType.llm_call, EventData.llmCall
           ⟨"m", "p", none, 5, 6, strTake 200 "pp", strTake 200 "rr", 9⟩⟩]⟩ ∧
      (strTake 200 "pp").length ≤ 200 ∧ (strTake 200 "rr").length ≤ 200 ∧
      ("pp".length ≤ 200 → strTake 200 "pp" = "pp") ∧
      ("rr".length ≤ 200 → strTake 200 "rr" = "rr"))) :=
  ⟨rfl, claim9_preview_truncation
    (runOps initState [Op.start 1 "j" none 0 true true]) 1 2
    ⟨1, 1, "j", none, 1, [],
      [⟨1, 0, AuditEventType.job_started, EventData.jobStarted ⟨"j", none, none⟩⟩]⟩
    "select 1" "users" "SELECT" 3 9 none "m" "p" "pp" "rr" 5 6 9 none true rfl⟩

/-- C8: for every existing session, getFullAuditReport returns the session
row together with all of its events (getAuditEntries, ascending by
sequenceNum), and a summary whose totalEvents equals the number of those
events and whose per-type tallies each equal the count of events of the
corresponding eventType. -/
theorem claim8_report_summary (db : DBState) (sid : Nat) (r : FullAuditReport)
    (h : getFullAuditReport db sid = some r) :
    getAuditLog db sid = some r.log ∧
    r.entries = getAuditEntries db sid ∧
    r.summary.totalEvents = r.entries.length ∧
    r.summary.dbQueries =
      r.entries.countP (fun e => e.eventType = AuditEventType.db_query) ∧
    r.summary.dbInserts =
      r.entries.countP (fun e => e.eventType = AuditEventType.db_insert) ∧
    r.summary.dbUpdates =
      r.entries.countP (fun e => e.eventType = AuditEventType.db_update) ∧
    r.summary.llmCalls =
      r.entries.countP (fun e => e.eventType = AuditEventType.llm_call) ∧
    r.summary.chunksProcessed =
      r.entries.countP (fun e => e.eventType = AuditEventType.chunk_processed) ∧
    r.summary.errors =
      r.entries.countP (fun e => e.eventType = AuditEventType.error) := by
  unfold getFullAuditReport at h
  cases hl : getAuditLog db sid with
  | none =>
    rw [hl] at h
    simp at h
  | some log =>
    rw [hl] at h
    simp only [Option.some.injEq] at h
    subst h
    refine ⟨rfl, rfl, rfl, ?_, ?_, ?_, ?_, ?_, ?_⟩ <;>
      rw [List.countP_eq_length_filter] <;> exact rfl

/-- Concrete store for the C8 witness: one session with two events. -/
def claim8Db : DBState := ⟨3, [⟨1, 1, "j", none, 0, none, "running", none⟩],
  [⟨1, 2, 5, AuditEventType.db_query, EventData.dbQuery ⟨"q", none, "t", "SELECT", 1, 2⟩⟩,
   ⟨1, 1, 0, AuditEventType.job_started, EventData.jobStarted ⟨"j", none, none⟩⟩]⟩

/-- The report the C8 witness expects for claim8Db. -/
def claim8Report : FullAuditReport :=
  ⟨⟨1, 1, "j", none, 0, none, "running", none⟩,
   [⟨1, 1, 0, AuditEventType.job_started, EventData.jobStarted ⟨"j", none, none⟩⟩,
    ⟨1, 2, 5, AuditEventType.db_query, EventData.dbQuery ⟨"q", none, "t", "SELECT", 1, 2⟩⟩],
   ⟨2, 1, 0, 0, 0, 0, 0⟩⟩

/-- Witness for C8 at the concrete store. -/
theorem claim8_report_summary_witness :
    getFullAuditReport claim8Db 1 = some claim8Report ∧
    (getAuditLog claim8Db 1 = some claim8Report.log ∧
     claim8Report.entries = getAuditEntries claim8Db 1 ∧
     claim8Report.summary.totalEvents = claim8Report.entries.length ∧
     claim8Report.summary.dbQueries =
       claim8Report.entries.countP (fun e => e.eventType = AuditEventType.db_query) ∧
     claim8Report.summary.dbInserts =
       claim8Report.entries.countP (fun e => e.eventType = AuditEventType.db_insert) ∧
     claim8Report.summary.dbUpdates =
       claim8Report.entries.countP (fun e => e.eventType = AuditEventType.db_update) ∧
     claim8Report.summary.llmCalls =
       claim8Report.entries.countP (fun e => e.eventType = AuditEventType.llm_call) ∧
     claim8Report.summary.chunksProcessed =
       claim8Report.entries.countP (fun e => e.eventType = AuditEventType.chunk_processed) ∧
     claim8Report.summary.errors =
       claim8Report.entries.countP (fun e => e.eventType = AuditEventType.error)) :=
  ⟨rfl, claim8_report_summary claim8Db 1 claim8Report rfl⟩

theorem alGet_closeSockets_self (l : List (Nat × Socket)) (ws : Nat) :
    alGet (l.map (fun p =>
        ((p.1 : Nat), if p.1 = ws then { p.2 with isOpen := false } else p.2))) ws
      = (alGet l ws).map (fun s => { s with isOpen := false }) := by
  induction l with
  | nil => rfl
  | cons p t ih =>
    obtain ⟨k1, v1⟩ := p
    simp only [List.map_cons, alGet]
    by_cases hp : k1 = ws
    · simp [hp]
    · simp [hp, ih]

theorem alGet_closeSockets_ne (l : List (Nat × Socket)) (ws k : Nat) (h : k ≠ ws) :
    alGet (l.map (fun p =>
        ((p.1 : Nat), if p.1 = ws then { p.2 with isOpen := false } else p.2))) k
      = alGet l k := by
  induction l with
  | nil => rfl
  | cons p t ih =>
    obtain ⟨k1, v1⟩ := p
    simp only [List.map_cons, alGet]
    by_cases hk : k1 = k
    · subst hk
      have hne : ¬ k1 = ws := fun hh => h (hh ▸ rfl)
      simp [hne]
    · simp [hk, ih]

theorem wsCloseUnsub_sockets (ws : Nat) (st1 : ServerState) :
    (wsCloseUnsub ws st1).sockets = st1.sockets := by
  unfold wsCloseUnsub wsCloseUnsubSession
  split
  · split <;> rfl
  · rfl

theorem wsClose_sockets (st : ServerState) (ws k : Nat) :
    alGet (wsClose st ws).sockets k =
      if k = ws then (alGet st.sockets k).map (fun s => { s with isOpen := false })
      else alGet st.sockets k := by
  show alGet (wsCloseUnsub ws (wsCloseSockets ws st)).sockets k = _
  rw [wsCloseUnsub_sockets]
  by_cases hk : k = ws
  · subst hk
    rw [if_pos rfl]
    exact alGet_closeSockets_self st.sockets k
  · rw [if_neg hk]
    exact alGet_closeSockets_ne st.sockets ws k hk

theorem wsClose_sockClosed (st : ServerState) (ws : Nat) :
    SockClosed (wsClose st ws) ws := by
  intro sock hs
  rw [wsClose_sockets st ws ws, if_pos rfl] at hs
  cases hg : alGet st.sockets ws with
  | none =>
    rw [hg] at hs
    exact absurd hs (by simp)
  | some s =>
    rw [hg] at hs
    have h2 : ({ s with isOpen := false } : Socket) = sock := by simpa using hs
    rw [← h2]

theorem alGet_logEvent_closed (st : ServerState) (sid ts : Nat) (ty : AuditEventType)
    (d : EventData) (ok : Bool) (ws : Nat) (hc : SockClosed st ws) :
    alGet (logEvent st sid ts ty d ok).sockets ws = alGet st.sockets ws := by
  cases ha : alGet st.activeAudits sid with
  | none =>
    rw [logEvent_none st sid ts ty d ok ha]
  | some a =>
    rw [logEvent_some st sid ts ty d ok a ha]
    exact alGet_sendAll_closed _ _ _ _ hc

theorem alGet_completeAuditNotify_closed (sid : Nat) (success : Bool) (st2 : ServerState)
    (ws : Nat) (hc : SockClosed st2 ws) :
    alGet (completeAuditNotify sid success st2).sockets ws = alGet st2.sockets ws := by
  unfold completeAuditNotify
  split
  · exact alGet_sendAll_closed _ _ _ _ hc
  · rfl

theorem alGet_wsSubscribeBody_closed (ws2 sid : Nat) (st1 : ServerState) (ws : Nat)
    (hc : SockClosed st1 ws) :
    alGet (wsSubscribeBody ws2 sid st1).sockets ws = alGet st1.sockets ws := by
  cases hg : alGet st1.activeAudits sid with
  | none =>
    rw [wsSubscribeBody_none ws2 sid st1 hg]
    by_cases hw : ws2 = ws
    · subst hw
      rw [send_closed _ _ _ hc]
    · exact alGet_send_ne _ _ _ _ (fun hh => hw hh.symm)
  | some audit =>
    rw [wsSubscribeBody_some ws2 sid st1 audit hg]
    simp only [wsSubscribeReplay]
    rw [foldl_send_eq_sendSeq]
    by_cases hw : ws2 = ws
    · subst hw
      have hc2 : SockClosed
          { st1 with
              activeAudits := alSet st1.activeAudits sid
                { audit with
                    subscribers :=
                      if audit.subscribers.contains ws2 then audit.subscribers
                      else audit.subscribers ++ [ws2] } } ws2 :=
        sockClosed_of_same_get st1 _ ws2 rfl hc
      rw [sendSeq_closed _ _ _ hc2, send_closed _ _ _ hc2]
    · have hne : ws ≠ ws2 := fun hh => hw hh.symm
      rw [alGet_send_ne _ _ _ _ hne, alGet_sendSeq_ne _ _ _ hne]

/-- Whether an operation reconnects the given socket handle (the only way
a closed transport could come back). -/
def opReconnects (ws : Nat) : Op → Bool
  | Op.connect w => w == ws
  | _ => false

theorem alGet_stepOp_closed (st : ServerState) (op : Op) (ws : Nat)
    (hop : opReconnects ws op = false) (hc : SockClosed st ws) :
    alGet (stepOp st op).sockets ws = alGet st.sockets ws := by
  cases op with
  | start u jt ji ts c e =>
    by_cases hcr : c = true
    · subst hcr
      show alGet (startAudit st u jt ji ts true e).1.sockets ws = _
      rw [startAudit_true]
      exact alGet_logEvent_closed _ _ _ _ _ _ _ (sockClosed_of_same_get st _ ws rfl hc)
    · replace hcr : c = false := by simpa using hcr
      subst hcr
      rfl
  | logEv id ts ty d ok => exact alGet_logEvent_closed st id ts ty d ok ws hc
  | complete id ts success pv aw tw e u =>
    have h1get := alGet_logEvent_closed st id ts AuditEventType.job_completed
      (EventData.jobCompleted ⟨jobTypeOrUnknown st id, tw, aw, success⟩) e ws hc
    have hc1 := sockClosed_of_same_get st _ ws h1get hc
    have h2get : alGet (completeAuditUpdate id ts success pv u (logEvent st id ts
        AuditEventType.job_completed (EventData.jobCompleted
          ⟨jobTypeOrUnknown st id, tw, aw, success⟩) e)).sockets ws
        = alGet (logEvent st id ts AuditEventType.job_completed (EventData.jobCompleted
          ⟨jobTypeOrUnknown st id, tw, aw, success⟩) e).sockets ws := by
      rw [completeAuditUpdate_sockets]
    have hc2 := sockClosed_of_same_get _ _ ws h2get hc1
    have h3get := alGet_completeAuditNotify_closed id success _ ws hc2
    exact Eq.trans h3get (Eq.trans h2get h1get)
  | connect w =>
    have hne : ws ≠ w := by
      intro hh
      subst hh
      simp [opReconnects] at hop
    show alGet (alSet st.sockets w ⟨true, []⟩) ws = alGet st.sockets ws
    exact alGet_alSet_ne _ _ _ _ hne
  | subscribe w id2 =>
    exact alGet_wsSubscribeBody_closed w id2 _ ws (sockClosed_of_same_get st _ ws rfl hc)
  | close w =>
    show alGet (wsClose st w).sockets ws = alGet st.sockets ws
    rw [wsClose_sockets st w ws]
    by_cases hw : ws = w
    · rw [if_pos hw]
      cases hg : alGet st.sockets ws with
      | none => rfl
      | some s =>
        have hfalse := hc s hg
        have hsame : ({ s with isOpen := false } : Socket) = s := by
          cases s
          simp_all
        simp [hsame]
    · rw [if_neg hw]

theorem alGet_runOps_closed (post : List Op) (ws : Nat) :
    ∀ st : ServerState, (∀ op ∈ post, opReconnects ws op = false) → SockClosed st ws →
      alGet (runOps st post).sockets ws = alGet st.sockets ws := by
  induction post with
  | nil => intro st _ _; rfl
  | cons op t ih =>
    intro st hops hc
    have hop := hops op (List.mem_cons_self op t)
    have hstep := alGet_stepOp_closed st op ws hop hc
    rw [runOps_cons, ih _ (fun o ho => hops o (List.mem_cons_of_mem _ ho))
      (sockClosed_of_same_get st _ ws hstep hc), hstep]

/-- C7: once a subscriber has been disconnected (its close handler ran, so
it was removed from its session's subscriber set and its transport is
closed), any subsequent sequence of operations — publishes for any
session, completions, other clients subscribing or closing — delivers
nothing further to that subscriber, as long as the same handle is not
reconnected; and every publish is a total function on the state, so the
publish call itself never raises an error whatever the state of any
subscriber's transport. -/
theorem claim7_unsubscribed_gets_nothing (st : ServerState) (ws : Nat) (post : List Op)
    (hpost : ∀ op ∈ post, opReconnects ws op = false) :
    inbox (runOps (wsClose st ws) post) ws = inbox (wsClose st ws) ws := by
  unfold inbox
  rw [alGet_runOps_closed post ws (wsClose st ws) hpost (wsClose_sockClosed st ws)]

/-- Witness for C7: subscriber 7 disconnects, then two more events and the
completion are published for its session. -/
theorem claim7_unsubscribed_gets_nothing_witness :
    (∀ op ∈ [Op.logEv 1 5 AuditEventType.error
        (EventData.errorEvent ⟨"e", "m", "c", none, true⟩) true,
      Op.complete 1 6 true none none none true true], opReconnects 7 op = false) ∧
    inbox (runOps (wsClose (runOps initState [Op.start 1 "j" none 0 true true,
        Op.connect 7, Op.subscribe 7 1]) 7)
        [Op.logEv 1 5 AuditEventType.error
          (EventData.errorEvent ⟨"e", "m", "c", none, true⟩) true,
         Op.complete 1 6 true none none none true true]) 7 =
      inbox (wsClose (runOps initState [Op.start 1 "j" none 0 true true,
        Op.connect 7, Op.subscribe 7 1]) 7) 7 :=
  ⟨by decide, claim7_unsubscribed_gets_nothing
    (runOps initState [Op.start 1 "j" none 0 true true, Op.connect 7, Op.subscribe 7 1]) 7
    [Op.logEv 1 5 AuditEventType.error
      (EventData.errorEvent ⟨"e", "m", "c", none, true⟩) true,
     Op.complete 1 6 true none none none true true] (by decide)⟩

/-- Whether an operation is an action of the given socket handle itself
(connecting, subscribing, or closing). -/
def opUsesWs (ws : Nat) : Op → Bool
  | Op.connect w => w == ws
  | Op.subscribe w _ => w == ws
  | Op.close w => w == ws
  | _ => false

/-- Entries published (broadcast) for a session by one operation from a
given state: a logEvent against the session, while it is live, broadcasts
the entry it stamps; completeAudit, while the session is live, broadcasts
its job_completed entry through the same path; every other operation
broadcasts nothing for this session. -/
def opPublishes (st : ServerState) (sid : Nat) : Op → List AuditLogEntry
  | Op.logEv id ts ty d _ =>
      if id = sid then
        match alGet st.activeAudits sid with
        | some a => [⟨a.sequenceCounter + 1, ts, ty, d⟩]
        | none => []
      else []
  | Op.complete id ts success _ aw tw _ _ =>
      if id = sid then
        match alGet st.activeAudits sid with
        | some a => [⟨a.sequenceCounter + 1, ts, AuditEventType.job_completed,
            EventData.jobCompleted ⟨jobTypeOrUnknown st sid, tw, aw, success⟩⟩]
        | none => []
      else []
  | _ => []

/-- All entries published for a session over a trace of operations. -/
def publishedFor (st : ServerState) (sid : Nat) : List Op → List AuditLogEntry
  | [] => []
  | op :: t => opPublishes st sid op ++ publishedFor (stepOp st op) sid t

/-- Invariant of one live subscriber of one session: the session id has
already been allocated, the subscriber's socket is open, the subscriber is
in the session's subscriber set whenever the session is live, and it is in
no other session's subscriber set. -/
def SubInv (st : ServerState) (ws sid : Nat) : Prop :=
  sid < st.db.nextId ∧
  (∃ rcv : List WireMsg, alGet st.sockets ws = some ⟨true, rcv⟩) ∧
  (∀ a, alGet st.activeAudits sid = some a → ws ∈ a.subscribers) ∧
  (∀ p ∈ st.activeAudits, p.1 ≠ sid → ws ∉ p.2.subscribers)

theorem inbox_congr (st st' : ServerState) (ws : Nat)
    (h : alGet st'.sockets ws = alGet st.sockets ws) : inbox st' ws = inbox st ws := by
  unfold inbox
  rw [h]

theorem subInv_congr (st st' : ServerState) (ws sid : Nat)
    (hA : st'.activeAudits = st.activeAudits) (hN : st'.db.nextId = st.db.nextId)
    (hS : alGet st'.sockets ws = alGet st.sockets ws)
    (h : SubInv st ws sid) : SubInv st' ws sid := by
  obtain ⟨hlt, ⟨rcv, hsock⟩, hin, hout⟩ := h
  refine ⟨by rw [hN]; exact hlt, ⟨rcv, by rw [hS]; exact hsock⟩, ?_, ?_⟩
  · intro a hga
    rw [hA] at hga
    exact hin a hga
  · intro p hp hpne
    rw [hA] at hp
    exact hout p hp hpne

theorem startAudit_registry (st : ServerState) (u : Nat) (jt : String) (ji : Option Nat)
    (ts : Nat) (e : Bool) :
    (startAudit st u jt ji ts true e).1.activeAudits
      = alSet (alSet st.activeAudits st.db.nextId ⟨st.db.nextId, u, jt, ji, 0, [], []⟩)
          st.db.nextId
          ⟨st.db.nextId, u, jt, ji, 1,
            [], [⟨1, ts, AuditEventType.job_started, EventData.jobStarted ⟨jt, none, none⟩⟩]⟩ := by
  rw [startAudit_true, logEvent_some _ _ _ _ _ _ ⟨st.db.nextId, u, jt, ji, 0, [], []⟩
    (alGet_alSet_self _ _ _), sendAll_activeAudits]
  exact rfl

theorem subscriber_start (st : ServerState) (u : Nat) (jt : String) (ji : Option Nat)
    (ts : Nat) (c e : Bool) (ws sid : Nat) (hsub : SubInv st ws sid) :
    SubInv (startAudit st u jt ji ts c e).1 ws sid ∧
    entryMsgs sid (inbox (startAudit st u jt ji ts c e).1 ws)
      = entryMsgs sid (inbox st ws) := by
  obtain ⟨hlt, ⟨rcv, hsock⟩, hin, hout⟩ := hsub
  by_cases hc : c = true
  · subst hc
    have hS := startAudit_state st u jt ji ts e
    have hreg := startAudit_registry st u jt ji ts e
    have hne0 : sid ≠ st.db.nextId := Nat.ne_of_lt hlt
    refine ⟨⟨?_, ⟨rcv, ?_⟩, ?_, ?_⟩, ?_⟩
    · rw [hS.2.2.2.1]
      omega
    · rw [hS.2.2.2.2.1]
      exact hsock
    · intro a hga
      rw [hreg, alGet_alSet_ne _ _ _ _ hne0, alGet_alSet_ne _ _ _ _ hne0] at hga
      exact hin a hga
    · intro p hp hpne
      rw [hreg] at hp
      rcases mem_alSet _ _ _ _ hp with h1 | h1
      · rw [h1]
        simp
      · rcases mem_alSet _ _ _ _ h1 with h2 | h2
        · rw [h2]
          simp
        · exact hout p h2 hpne
    · rw [inbox_congr st (startAudit st u jt ji ts true e).1 ws (by rw [hS.2.2.2.2.1])]
  · replace hc : c = false := by simpa using hc
    subst hc
    exact ⟨⟨hlt, ⟨rcv, hsock⟩, hin, hout⟩, rfl⟩

theorem logEvent_some_nextId (st : ServerState) (sid ts : Nat) (ty : AuditEventType)
    (d : EventData) (ok : Bool) (a : ActiveAudit) (ha : alGet st.activeAudits sid = some a) :
    (logEvent st sid ts ty d ok).db.nextId = st.db.nextId := by
  rw [logEvent_some st sid ts ty d ok a ha, sendAll_db]

theorem logEvent_some_registry_ne (st : ServerState) (sid ts : Nat) (ty : AuditEventType)
    (d : EventData) (ok : Bool) (a : ActiveAudit) (ha : alGet st.activeAudits sid = some a)
    (k : Nat) (hk : k ≠ sid) :
    alGet (logEvent st sid ts ty d ok).activeAudits k = alGet st.activeAudits k := by
  rw [logEvent_some st sid ts ty d ok a ha, sendAll_activeAudits]
  simp [alGet_alSet_ne _ _ _ _ hk]

theorem logEvent_some_mem (st : ServerState) (sid ts : Nat) (ty : AuditEventType)
    (d : EventData) (ok : Bool) (a : ActiveAudit) (ha : alGet st.activeAudits sid = some a)
    (p : Nat × ActiveAudit) (hp : p ∈ (logEvent st sid ts ty d ok).activeAudits) :
    p = (sid, { a with
                  sequenceCounter := a.sequenceCounter + 1,
                  entries := a.entries ++ [⟨a.sequenceCounter + 1, ts, ty, d⟩] }) ∨
    p ∈ st.activeAudits := by
  rw [logEvent_some st sid ts ty d ok a ha, sendAll_activeAudits] at hp
  exact mem_alSet _ _ _ _ hp

theorem logEvent_some_sockets_mem (st : ServerState) (sid ts : Nat) (ty : AuditEventType)
    (d : EventData) (ok : Bool) (a : ActiveAudit) (ws : Nat) (rcv : List WireMsg)
    (ha : alGet st.activeAudits sid = some a) (hnd : a.subscribers.Nodup)
    (hmem : ws ∈ a.subscribers) (hsock : alGet st.sockets ws = some ⟨true, rcv⟩) :
    alGet (logEvent st sid ts ty d ok).sockets ws =
      some ⟨true, rcv ++ [WireMsg.entryMsg sid ⟨a.sequenceCounter + 1, ts, ty, d⟩]⟩ := by
  rw [logEvent_some st sid ts ty d ok a ha]
  exact sendAll_open_mem _ _ _ hnd hmem _ rcv hsock

theorem logEvent_some_sockets_not_mem (st : ServerState) (sid ts : Nat)
    (ty : AuditEventType) (d : EventData) (ok : Bool) (a : ActiveAudit) (ws : Nat)
    (ha : alGet st.activeAudits sid = some a) (hmem : ws ∉ a.subscribers) :
    alGet (logEvent st sid ts ty d ok).sockets ws = alGet st.sockets ws := by
  rw [logEvent_some st sid ts ty d ok a ha, alGet_sendAll_not_mem _ _ _ hmem]

theorem subscriber_logEvent (st : ServerState) (sid2 ts : Nat) (ty : AuditEventType)
    (d : EventData) (ok : Bool) (ws sid : Nat) (hst : StateInv st) (hsub : SubInv st ws sid) :
    SubInv (logEvent st sid2 ts ty d ok) ws sid ∧
    entryMsgs sid (inbox (logEvent st sid2 ts ty d ok) ws)
      = entryMsgs sid (inbox st ws) ++
        (if sid2 = sid then
          match alGet st.activeAudits sid with
          | some a => [(⟨a.sequenceCounter + 1, ts, ty, d⟩ : AuditLogEntry)]
          | none => []
        else []) := by
  obtain ⟨hlt, ⟨rcv, hsock⟩, hin, hout⟩ := hsub
  cases ha : alGet st.activeAudits sid2 with
  | none =>
    have hp := logEvent_none_proj st sid2 ts ty d ok ha
    constructor
    · exact subInv_congr st _ ws sid hp.1 hp.2.2.2.2.1 (by rw [hp.2.1])
        ⟨hlt, ⟨rcv, hsock⟩, hin, hout⟩
    · rw [inbox_congr st _ ws (by rw [hp.2.1])]
      by_cases heq : sid2 = sid
      · subst heq
        rw [ha]
        simp
      · rw [if_neg heq]
        simp
  | some a =>
    by_cases heq : sid2 = sid
    · subst heq
      have hmemreg : (sid2, a) ∈ st.activeAudits := alGet_mem _ _ _ ha
      have hwsmem : ws ∈ a.subscribers := hin a ha
      have hnd : a.subscribers.Nodup := hst.subsNodup (sid2, a) hmemreg
      have hbind := logEvent_some_sockets_mem st sid2 ts ty d ok a ws rcv ha hnd hwsmem hsock
      constructor
      · refine ⟨?_,
          ⟨rcv ++ [WireMsg.entryMsg sid2 ⟨a.sequenceCounter + 1, ts, ty, d⟩], hbind⟩, ?_, ?_⟩
        · rw [logEvent_some_nextId st sid2 ts ty d ok a ha]
          exact hlt
        · intro a0 hga0
          rw [logEvent_some_registry st sid2 ts ty d ok a ha] at hga0
          have h0 := Option.some.inj hga0
          rw [← h0]
          exact hwsmem
        · intro p hp hpne
          rcases logEvent_some_mem st sid2 ts ty d ok a ha p hp with rfl | h1
          · exact absurd rfl hpne
          · exact hout p h1 hpne
      · unfold inbox
        rw [hbind, hsock, ha, if_pos rfl]
        rw [entryMsgs_append]
        simp [entryMsgs_entry_self]
    · have hnotmem : ws ∉ a.subscribers := hout (sid2, a) (alGet_mem _ _ _ ha) heq
      have hbind := logEvent_some_sockets_not_mem st sid2 ts ty d ok a ws ha hnotmem
      constructor
      · refine ⟨?_, ⟨rcv, by rw [hbind]; exact hsock⟩, ?_, ?_⟩
        · rw [logEvent_some_nextId st sid2 ts ty d ok a ha]
          exact hlt
        · intro a0 hga0
          rw [logEvent_some_registry_ne st sid2 ts ty d ok a ha sid
            (fun hh => heq hh.symm)] at hga0
          exact hin a0 hga0
        · intro p hp hpne
          rcases logEvent_some_mem st sid2 ts ty d ok a ha p hp with rfl | h1
          · exact hnotmem
          · exact hout p h1 hpne
      · rw [inbox_congr st _ ws hbind, if_neg heq]
        simp

theorem completeAuditNotify_some (sid : Nat) (success : Bool) (st2 : ServerState)
    (audit : ActiveAudit) (h : alGet st2.activeAudits sid = some audit) :
    completeAuditNotify sid success st2 =
      sendAll st2 audit.subscribers
        (WireMsg.completedMsg sid success audit.entries.length) := by
  simp only [completeAuditNotify, h]

theorem subscriber_notify (sid2 : Nat) (success : Bool) (st2 : ServerState) (ws sid : Nat)
    (hst : StateInv st2) (hsub : SubInv st2 ws sid) :
    SubInv (completeAuditNotify sid2 success st2) ws sid ∧
    entryMsgs sid (inbox (completeAuditNotify sid2 success st2) ws)
      = entryMsgs sid (inbox st2 ws) := by
  obtain ⟨hlt, ⟨rcv, hsock⟩, hin, hout⟩ := hsub
  cases hg : alGet st2.activeAudits sid2 with
  | none =>
    rw [completeAuditNotify_none sid2 success st2 hg]
    exact ⟨⟨hlt, ⟨rcv, hsock⟩, hin, hout⟩, rfl⟩
  | some audit =>
    rw [completeAuditNotify_some sid2 success st2 audit hg]
    by_cases heq : sid2 = sid
    · subst heq
      have hwsmem : ws ∈ audit.subscribers := hin audit hg
      have hnd := hst.subsNodup (sid2, audit) (alGet_mem _ _ _ hg)
      have hbind := sendAll_open_mem audit.subscribers
        (WireMsg.completedMsg sid2 success audit.entries.length) ws hnd hwsmem st2 rcv hsock
      refine ⟨⟨?_, ⟨_, hbind⟩, ?_, ?_⟩, ?_⟩
      · rw [sendAll_db]
        exact hlt
      · intro a0 hga0
        rw [sendAll_activeAudits] at hga0
        exact hin a0 hga0
      · intro p hp hpne
        rw [sendAll_activeAudits] at hp
        exact hout p hp hpne
      · unfold inbox
        rw [hbind, hsock, entryMsgs_append, entryMsgs_completed, List.append_nil]
    · have hnotmem : ws ∉ audit.subscribers := hout (sid2, audit) (alGet_mem _ _ _ hg) heq
      have hbind := alGet_sendAll_not_mem audit.subscribers
        (WireMsg.completedMsg sid2 success audit.entries.length) ws hnotmem st2
      refine ⟨⟨?_, ⟨rcv, by rw [hbind]; exact hsock⟩, ?_, ?_⟩, ?_⟩
      · rw [sendAll_db]
        exact hlt
      · intro a0 hga0
        rw [sendAll_activeAudits] at hga0
        exact hin a0 hga0
      · intro p hp hpne
        rw [sendAll_activeAudits] at hp
        exact hout p hp hpne
      · exact congrArg (entryMsgs sid) (inbox_congr st2 _ ws hbind)

theorem subscriber_update (sid2 ts : Nat) (success : Bool) (pv : Option String) (uok : Bool)
    (st1 : ServerState) (ws sid : Nat) (hsub : SubInv st1 ws sid) :
    SubInv (completeAuditUpdate sid2 ts success pv uok st1) ws sid ∧
    inbox (completeAuditUpdate sid2 ts success pv uok st1) ws = inbox st1 ws := by
  have hS := completeAuditUpdate_sockets sid2 ts success pv uok st1
  exact ⟨subInv_congr st1 _ ws sid (completeAuditUpdate_activeAudits sid2 ts success pv uok st1)
      (completeAuditUpdate_nextId sid2 ts success pv uok st1) (by rw [hS]) hsub,
    inbox_congr st1 _ ws (by rw [hS])⟩

theorem subscriber_erase (st3 : ServerState) (sid2 ws sid : Nat) (hst : StateInv st3)
    (hsub : SubInv st3 ws sid) :
    SubInv { st3 with activeAudits := alErase st3.activeAudits sid2 } ws sid := by
  obtain ⟨hlt, ⟨rcv, hsock⟩, hin, hout⟩ := hsub
  refine ⟨hlt, ⟨rcv, hsock⟩, ?_, ?_⟩
  · intro a hga
    have hga2 : alGet (alErase st3.activeAudits sid2) sid = some a := hga
    by_cases hq : sid = sid2
    · subst hq
      rw [alGet_alErase_self _ _ hst.keysNodup] at hga2
      exact absurd hga2 (by simp)
    · rw [alGet_alErase_ne _ _ _ hq] at hga2
      exact hin a hga2
  · intro p hp hpne
    have hp2 : p ∈ alErase st3.activeAudits sid2 := hp
    exact hout p (mem_alErase _ _ _ hp2) hpne

theorem subscriber_complete (st : ServerState) (sid2 ts : Nat) (success : Bool)
    (pv : Option String) (aw tw : Option Nat) (eok uok : Bool) (ws sid : Nat)
    (hst : StateInv st) (hsub : SubInv st ws sid) :
    SubInv (completeAudit st sid2 ts success pv aw tw eok uok) ws sid ∧
    entryMsgs sid (inbox (completeAudit st sid2 ts success pv aw tw eok uok) ws)
      = entryMsgs sid (inbox st ws) ++
        (if sid2 = sid then
          match alGet st.activeAudits sid with
          | some a => [(⟨a.sequenceCounter + 1, ts, AuditEventType.job_completed,
              EventData.jobCompleted ⟨jobTypeOrUnknown st sid2, tw, aw, success⟩⟩ :
                AuditLogEntry)]
          | none => []
        else []) := by
  have h1 := subscriber_logEvent st sid2 ts AuditEventType.job_completed
    (EventData.jobCompleted ⟨jobTypeOrUnknown st sid2, tw, aw, success⟩) eok ws sid hst hsub
  have hst1 := stateInv_logEvent st sid2 ts AuditEventType.job_completed
    (EventData.jobCompleted ⟨jobTypeOrUnknown st sid2, tw, aw, success⟩) eok hst
  have h2 := subscriber_update sid2 ts success pv uok _ ws sid h1.1
  have hst2 := stateInv_completeAuditUpdate sid2 ts success pv uok _ hst1
  have h3 := subscriber_notify sid2 success _ ws sid hst2 h2.1
  constructor
  · exact subscriber_erase _ sid2 ws sid (stateInv_completeAuditNotify sid2 success _ hst2) h3.1
  · have hfinal : inbox (completeAudit st sid2 ts success pv aw tw eok uok) ws
        = inbox (completeAuditNotify sid2 success (completeAuditUpdate sid2 ts success pv uok
            (logEvent st sid2 ts AuditEventType.job_completed
              (EventData.jobCompleted ⟨jobTypeOrUnknown st sid2, tw, aw, success⟩) eok))) ws :=
      rfl
    rw [hfinal, h3.2, h2.2, h1.2]

theorem wsSubscribeReplay_activeAudits (w sid2 : Nat) (audit : ActiveAudit)
    (st1 : ServerState) :
    (wsSubscribeReplay w sid2 audit st1).activeAudits
      = alSet st1.activeAudits sid2
          { audit with subscribers :=
              if audit.subscribers.contains w then audit.subscribers
              else audit.subscribers ++ [w] } := by
  simp only [wsSubscribeReplay]
  rw [foldl_send_eq_sendSeq, send_activeAudits, sendSeq_activeAudits]

theorem wsSubscribeReplay_nextId (w sid2 : Nat) (audit : ActiveAudit) (st1 : ServerState) :
    (wsSubscribeReplay w sid2 audit st1).db.nextId = st1.db.nextId := by
  simp only [wsSubscribeReplay]
  rw [foldl_send_eq_sendSeq, send_db, sendSeq_db]

theorem wsSubscribeReplay_sockets_ne (w sid2 : Nat) (audit : ActiveAudit)
    (st1 : ServerState) (ws : Nat) (h : ws ≠ w) :
    alGet (wsSubscribeReplay w sid2 audit st1).sockets ws = alGet st1.sockets ws := by
  simp only [wsSubscribeReplay]
  rw [foldl_send_eq_sendSeq, alGet_send_ne _ _ _ _ h, alGet_sendSeq_ne _ _ _ h]

theorem subInv_wsSubscribeBody_other (w sid2 : Nat) (st1 : ServerState) (ws sid : Nat)
    (hw : ws ≠ w) (hsub : SubInv st1 ws sid) :
    SubInv (wsSubscribeBody w sid2 st1) ws sid ∧
    inbox (wsSubscribeBody w sid2 st1) ws = inbox st1 ws := by
  obtain ⟨hlt, ⟨rcv, hsock⟩, hin, hout⟩ := hsub
  cases hg : alGet st1.activeAudits sid2 with
  | none =>
    rw [wsSubscribeBody_none w sid2 st1 hg]
    have hbind : alGet (send st1 w (WireMsg.subscribedMsg sid2)).sockets ws
        = alGet st1.sockets ws := alGet_send_ne _ _ _ _ hw
    refine ⟨⟨?_, ⟨rcv, by rw [hbind]; exact hsock⟩, ?_, ?_⟩, inbox_congr st1 _ ws hbind⟩
    · rw [send_db]
      exact hlt
    · intro a0 hga0
      rw [send_activeAudits] at hga0
      exact hin a0 hga0
    · intro p hp hpne
      rw [send_activeAudits] at hp
      exact hout p hp hpne
  | some audit =>
    rw [wsSubscribeBody_some w sid2 st1 audit hg]
    have hbind := wsSubscribeReplay_sockets_ne w sid2 audit st1 ws hw
    refine ⟨⟨?_, ⟨rcv, by rw [hbind]; exact hsock⟩, ?_, ?_⟩, inbox_congr st1 _ ws hbind⟩
    · rw [wsSubscribeReplay_nextId]
      exact hlt
    · intro a0 hga0
      rw [wsSubscribeReplay_activeAudits] at hga0
      by_cases heq : sid2 = sid
      · subst heq
        rw [alGet_alSet_self] at hga0
        have h0 := Option.some.inj hga0
        rw [← h0]
        have hmem := hin audit hg
        show ws ∈ (if audit.subscribers.contains w then audit.subscribers
          else audit.subscribers ++ [w])
        by_cases hc : audit.subscribers.contains w
        · rw [if_pos hc]
          exact hmem
        · rw [if_neg hc]
          exact List.mem_append_left _ hmem
      · rw [alGet_alSet_ne _ _ _ _ (fun hh => heq hh.symm)] at hga0
        exact hin a0 hga0
    · intro p hp hpne
      rw [wsSubscribeReplay_activeAudits] at hp
      rcases mem_alSet _ _ _ _ hp with rfl | h1
      · have hnot : ws ∉ audit.subscribers := hout (sid2, audit) (alGet_mem _ _ _ hg) hpne
        show ws ∉ (if audit.subscribers.contains w then audit.subscribers
          else audit.subscribers ++ [w])
        by_cases hc : audit.subscribers.contains w
        · rw [if_pos hc]
          exact hnot
        · rw [if_neg hc]
          intro hmm
          rcases List.mem_append.mp hmm with hmm1 | hmm1
          · exact hnot hmm1
          · exact hw (List.mem_singleton.mp hmm1)
      · exact hout p h1 hpne

theorem subscriber_subscribe_other (st : ServerState) (w sid2 ws sid : Nat) (hw : w ≠ ws)
    (hsub : SubInv st ws sid) :
    SubInv (wsSubscribe st w sid2) ws sid ∧
    inbox (wsSubscribe st w sid2) ws = inbox st ws := by
  have hsubCC : SubInv
      { st with clientConnections := alSet st.clientConnections w (some sid2) } ws sid :=
    subInv_congr st _ ws sid rfl rfl rfl hsub
  have h := subInv_wsSubscribeBody_other w sid2
    { st with clientConnections := alSet st.clientConnections w (some sid2) } ws sid
    (fun hh => hw hh.symm) hsubCC
  exact ⟨h.1, h.2.trans rfl⟩

theorem subInv_wsCloseUnsubSession (w sid3 : Nat) (st1 : ServerState) (ws sid : Nat)
    (hw : ws ≠ w) (hsub : SubInv st1 ws sid) :
    SubInv (wsCloseUnsubSession w sid3 st1) ws sid := by
  unfold wsCloseUnsubSession
  cases hga : alGet st1.activeAudits sid3 with
  | none => exact hsub
  | some audit =>
    obtain ⟨hlt, ⟨rcv, hsock⟩, hin, hout⟩ := hsub
    refine ⟨hlt, ⟨rcv, hsock⟩, ?_, ?_⟩
    · intro a hga0
      have hga2 : alGet (alSet st1.activeAudits sid3
          { audit with subscribers := audit.subscribers.erase w }) sid = some a := hga0
      by_cases hq : sid3 = sid
      · subst hq
        rw [alGet_alSet_self] at hga2
        have h0 := Option.some.inj hga2
        rw [← h0]
        exact (List.mem_erase_of_ne hw).mpr (hin audit hga)
      · rw [alGet_alSet_ne _ _ _ _ (fun hh => hq hh.symm)] at hga2
        exact hin a hga2
    · intro p hp hpne
      have hp2 : p ∈ alSet st1.activeAudits sid3
          { audit with subscribers := audit.subscribers.erase w } := hp
      rcases mem_alSet _ _ _ _ hp2 with rfl | h1
      · have hnot := hout (sid3, audit) (alGet_mem _ _ _ hga) hpne
        intro hmm
        exact hnot (List.mem_of_mem_erase hmm)
      · exact hout p h1 hpne

theorem subInv_wsCloseUnsub (w : Nat) (st1 : ServerState) (ws sid : Nat) (hw : ws ≠ w)
    (hsub : SubInv st1 ws sid) : SubInv (wsCloseUnsub w st1) ws sid := by
  unfold wsCloseUnsub
  split
  · rename_i sid3 hcc
    exact subInv_wsCloseUnsubSession w sid3 st1 ws sid hw hsub
  · exact hsub

theorem wsCloseUnsubSession_db (w sid3 : Nat) (st1 : ServerState) :
    (wsCloseUnsubSession w sid3 st1).db = st1.db := by
  unfold wsCloseUnsubSession
  split <;> rfl

theorem wsCloseUnsub_db (w : Nat) (st1 : ServerState) :
    (wsCloseUnsub w st1).db = st1.db := by
  unfold wsCloseUnsub
  split
  · rw [wsCloseUnsubSession_db]
  · rfl

theorem subscriber_close_other (st : ServerState) (w ws sid : Nat) (hw : w ≠ ws)
    (hsub : SubInv st ws sid) :
    SubInv (wsClose st w) ws sid ∧ inbox (wsClose st w) ws = inbox st ws := by
  have hws : ws ≠ w := fun hh => hw hh.symm
  have hsockstage : alGet (wsCloseSockets w st).sockets ws = alGet st.sockets ws :=
    alGet_closeSockets_ne st.sockets w ws hws
  have hsub1 : SubInv (wsCloseSockets w st) ws sid :=
    subInv_congr st _ ws sid rfl rfl hsockstage hsub
  have hsub2 : SubInv (wsCloseUnsub w (wsCloseSockets w st)) ws sid :=
    subInv_wsCloseUnsub w _ ws sid hws hsub1
  constructor
  · exact subInv_congr (wsCloseUnsub w (wsCloseSockets w st)) (wsClose st w) ws sid
      rfl rfl rfl hsub2
  · have hbind : alGet (wsClose st w).sockets ws = alGet st.sockets ws := by
      rw [wsClose_sockets st w ws, if_neg hws]
    exact inbox_congr st _ ws hbind

theorem subscriber_connect_other (st : ServerState) (w ws sid : Nat) (hw : w ≠ ws)
    (hsub : SubInv st ws sid) :
    SubInv (wsConnect st w) ws sid ∧ inbox (wsConnect st w) ws = inbox st ws := by
  have hws : ws ≠ w := fun hh => hw hh.symm
  have hbind : alGet (wsConnect st w).sockets ws = alGet st.sockets ws := by
    show alGet (alSet st.sockets w ⟨true, []⟩) ws = alGet st.sockets ws
    exact alGet_alSet_ne _ _ _ _ hws
  exact ⟨subInv_congr st _ ws sid rfl rfl hbind hsub, inbox_congr st _ ws hbind⟩

theorem subscriber_step (st : ServerState) (op : Op) (ws sid : Nat)
    (hst : StateInv st) (hsub : SubInv st ws sid) (hop : opUsesWs ws op = false) :
    SubInv (stepOp st op) ws sid ∧
    entryMsgs sid (inbox (stepOp st op) ws)
      = entryMsgs sid (inbox st ws) ++ opPublishes st sid op := by
  cases op with
  | start u jt ji ts c e =>
    have h := subscriber_start st u jt ji ts c e ws sid hsub
    refine ⟨h.1, ?_⟩
    rw [show stepOp st (Op.start u jt ji ts c e) = (startAudit st u jt ji ts c e).1 from rfl,
      h.2]
    simp [opPublishes]
  | logEv id ts ty d ok =>
    have h := subscriber_logEvent st id ts ty d ok ws sid hst hsub
    refine ⟨h.1, ?_⟩
    rw [show stepOp st (Op.logEv id ts ty d ok) = logEvent st id ts ty d ok from rfl, h.2]
    exact rfl
  | complete id ts success pv aw tw e u =>
    have h := subscriber_complete st id ts success pv aw tw e u ws sid hst hsub
    refine ⟨h.1, ?_⟩
    rw [show stepOp st (Op.complete id ts success pv aw tw e u)
      = completeAudit st id ts success pv aw tw e u from rfl, h.2]
    by_cases heq : id = sid
    · subst heq
      exact rfl
    · rw [if_neg heq]
      simp [opPublishes, heq]
  | connect w =>
    have hwne : w ≠ ws := by
      simp [opUsesWs] at hop
      exact hop
    have h := subscriber_connect_other st w ws sid hwne hsub
    refine ⟨h.1, ?_⟩
    rw [show stepOp st (Op.connect w) = wsConnect st w from rfl, h.2]
    simp [opPublishes]
  | subscribe w id2 =>
    have hwne : w ≠ ws := by
      simp [opUsesWs] at hop
      exact hop
    have h := subscriber_subscribe_other st w id2 ws sid hwne hsub
    refine ⟨h.1, ?_⟩
    rw [show stepOp st (Op.subscribe w id2) = wsSubscribe st w id2 from rfl, h.2]
    simp [opPublishes]
  | close w =>
    have hwne : w ≠ ws := by
      simp [opUsesWs] at hop
      exact hop
    have h := subscriber_close_other st w ws sid hwne hsub
    refine ⟨h.1, ?_⟩
    rw [show stepOp st (Op.close w) = wsClose st w from rfl, h.2]
    simp [opPublishes]

theorem live_delivery (post : List Op) (ws sid : Nat) :
    ∀ st : ServerState, StateInv st → SubInv st ws sid →
      (∀ op ∈ post, opUsesWs ws op = false) →
      entryMsgs sid (inbox (runOps st post) ws)
        = entryMsgs sid (inbox st ws) ++ publishedFor st sid post := by
  induction post with
  | nil =>
    intro st _ _ _
    simp [runOps, publishedFor]
  | cons op t ih =>
    intro st hst hsub hops
    have hop := hops op (List.mem_cons_self op t)
    have hstep := subscriber_step st op ws sid hst hsub hop
    rw [runOps_cons,
      ih _ (stateInv_stepOp st op hst) hstep.1 (fun o ho => hops o (List.mem_cons_of_mem _ ho)),
      hstep.2,
      show publishedFor st sid (op :: t)
        = opPublishes st sid op ++ publishedFor (stepOp st op) sid t from rfl,
      List.append_assoc]

theorem subscribe_replay (st : ServerState) (ws sid : Nat) (a : ActiveAudit)
    (rcv : List WireMsg) (ha : alGet st.activeAudits sid = some a)
    (hsock : alGet st.sockets ws = some ⟨true, rcv⟩)
    (hfresh : ∀ p ∈ st.activeAudits, ws ∉ p.2.subscribers)
    (hst : StateInv st) :
    SubInv (wsSubscribe st ws sid) ws sid ∧
    entryMsgs sid (inbox (wsSubscribe st ws sid) ws) = entryMsgs sid rcv ++ a.entries := by
  have hmemreg : (sid, a) ∈ st.activeAudits := alGet_mem _ _ _ ha
  have hlt : sid < st.db.nextId := hst.idLt (sid, a) hmemreg
  have hcon : a.subscribers.contains ws = false := by
    rw [Bool.eq_false_iff]
    intro hc
    exact hfresh (sid, a) hmemreg (List.elem_iff.mp hc)
  have haCC : alGet ({ st with
      clientConnections := alSet st.clientConnections ws (some sid) } :
        ServerState).activeAudits sid = some a := ha
  have hbody : wsSubscribe st ws sid = wsSubscribeReplay ws sid a
      { st with clientConnections := alSet st.clientConnections ws (some sid) } :=
    wsSubscribeBody_some ws sid _ a haCC
  have hsubs : (if a.subscribers.contains ws then a.subscribers
      else a.subscribers ++ [ws]) = a.subscribers ++ [ws] := by
    rw [if_neg (by rw [hcon]; exact Bool.false_ne_true)]
  -- socket binding through the replay
  have hbind : alGet (wsSubscribe st ws sid).sockets ws =
      some ⟨true, rcv ++ a.entries.map (WireMsg.entryMsg sid) ++ [WireMsg.subscribedMsg sid]⟩ := by
    rw [hbody]
    simp only [wsSubscribeReplay]
    rw [foldl_send_eq_sendSeq]
    exact send_self_open _ ws _ (rcv ++ a.entries.map (WireMsg.entryMsg sid))
      (sendSeq_open _ ws _ rcv hsock)
  constructor
  · refine ⟨?_, ⟨_, hbind⟩, ?_, ?_⟩
    · rw [hbody, wsSubscribeReplay_nextId]
      exact hlt
    · intro a0 hga0
      rw [hbody, wsSubscribeReplay_activeAudits, alGet_alSet_self] at hga0
      have h0 := Option.some.inj hga0
      rw [← h0]
      show ws ∈ (if a.subscribers.contains ws then a.subscribers else a.subscribers ++ [ws])
      rw [hsubs]
      exact List.mem_append_right _ (List.mem_singleton.mpr rfl)
    · intro p hp hpne
      rw [hbody, wsSubscribeReplay_activeAudits] at hp
      rcases mem_alSet _ _ _ _ hp with rfl | h1
      · exact absurd rfl hpne
      · exact hfresh p h1
  · unfold inbox
    rw [hbind]
    show entryMsgs sid (rcv ++ a.entries.map (WireMsg.entryMsg sid)
      ++ [WireMsg.subscribedMsg sid]) = entryMsgs sid rcv ++ a.entries
    rw [entryMsgs_append, entryMsgs_append, entryMsgs_subscribed,
      entryMsgs_map_entry, List.append_nil]

/-- C1: take any reachable state (any operation trace `pre` from process
start) in which session `sid` is live with registry record `a` and socket
`ws` is open with inbox `rcv` and not yet subscribed anywhere. If `ws`
then subscribes to `sid` and is afterwards never reused (no further
connect/subscribe/close on that socket), the ordered sequence of entry
messages for `sid` that `ws` holds at the end of any continuation `post`
is exactly: what it had before, then the full buffer of `a` replayed at
subscribe time — whose sequenceNums are 1,2,...,n in ascending order —
then exactly the events published for `sid` after the subscription, with
no duplicate, no omission and no reordering. -/
theorem claim1_replay_then_live (pre post : List Op) (ws sid : Nat)
    (a : ActiveAudit) (rcv : List WireMsg)
    (ha : alGet (runOps initState pre).activeAudits sid = some a)
    (hsock : alGet (runOps initState pre).sockets ws = some ⟨true, rcv⟩)
    (hfresh : ∀ p ∈ (runOps initState pre).activeAudits, ws ∉ p.2.subscribers)
    (hpost : ∀ op ∈ post, opUsesWs ws op = false) :
    entryMsgs sid (inbox (runOps initState (pre ++ Op.subscribe ws sid :: post)) ws)
      = entryMsgs sid rcv ++ a.entries
        ++ publishedFor (wsSubscribe (runOps initState pre) ws sid) sid post ∧
    a.entries.map (fun e => e.sequenceNum) = List.range' 1 a.entries.length := by
  have hstinv : StateInv (runOps initState pre) :=
    stateInv_runOps pre initState stateInv_initState
  have hrep := subscribe_replay (runOps initState pre) ws sid a rcv ha hsock hfresh hstinv
  have hsub2 : StateInv (wsSubscribe (runOps initState pre) ws sid) :=
    stateInv_stepOp (runOps initState pre) (Op.subscribe ws sid) hstinv
  constructor
  · rw [runOps_append, runOps_cons]
    have hld := live_delivery post ws sid (wsSubscribe (runOps initState pre) ws sid)
      hsub2 hrep.1 hpost
    rw [show stepOp (runOps initState pre) (Op.subscribe ws sid)
        = wsSubscribe (runOps initState pre) ws sid from rfl]
    rw [hld, hrep.2]
  · exact hstinv.wfSeq (sid, a) (alGet_mem _ _ _ ha)

theorem claim1_replay_then_live_witness :
    (alGet (runOps initState [Op.start 9 "j" none 0 true true,
        Op.connect 7]).activeAudits 1 =
      some ⟨1, 9, "j", none, 1, [],
        [⟨1, 0, AuditEventType.job_started, EventData.jobStarted ⟨"j", none, none⟩⟩]⟩ ∧
     alGet (runOps initState [Op.start 9 "j" none 0 true true,
        Op.connect 7]).sockets 7 = some ⟨true, []⟩ ∧
     (∀ p ∈ (runOps initState [Op.start 9 "j" none 0 true true,
        Op.connect 7]).activeAudits, 7 ∉ p.2.subscribers) ∧
     (∀ op ∈ [Op.logEv 1 5 AuditEventType.error
        (EventData.errorEvent ⟨"e", "m", "c", none, true⟩) true],
        opUsesWs 7 op = false)) ∧
    (entryMsgs 1 (inbox (runOps initState ([Op.start 9 "j" none 0 true true,
          Op.connect 7] ++ Op.subscribe 7 1 :: [Op.logEv 1 5 AuditEventType.error
          (EventData.errorEvent ⟨"e", "m", "c", none, true⟩) true])) 7)
       = entryMsgs 1 []
         ++ (⟨1, 9, "j", none, 1, [],
              [⟨1, 0, AuditEventType.job_started,
                EventData.jobStarted ⟨"j", none, none⟩⟩]⟩ : ActiveAudit).entries
         ++ publishedFor (wsSubscribe (runOps initState [Op.start 9 "j" none 0 true true,
              Op.connect 7]) 7 1) 1
            [Op.logEv 1 5 AuditEventType.error
              (EventData.errorEvent ⟨"e", "m", "c", none, true⟩) true] ∧
     (⟨1, 9, "j", none, 1, [],
        [⟨1, 0, AuditEventType.job_started,
          EventData.jobStarted ⟨"j", none, none⟩⟩]⟩ : ActiveAudit).entries.map
        (fun e => e.sequenceNum)
       = List.range' 1 (⟨1, 9, "j", none, 1, [],
          [⟨1, 0, AuditEventType.job_started,
            EventData.jobStarted ⟨"j", none, none⟩⟩]⟩ : ActiveAudit).entries.length) :=
  ⟨⟨rfl, rfl, by decide, by decide⟩,
   claim1_replay_then_live [Op.start 9 "j" none 0 true true, Op.connect 7]
     [Op.logEv 1 5 AuditEventType.error
       (EventData.errorEvent ⟨"e", "m", "c", none, true⟩) true] 7 1
     ⟨1, 9, "j", none, 1, [],
       [⟨1, 0, AuditEventType.job_started, EventData.jobStarted ⟨"j", none, none⟩⟩]⟩
     [] rfl rfl (by decide) (by decide)⟩
